import Mathlib

/-!
Verification development for the `myagent` repository: a shallow embedding of
its EVM bytecode decompiler (`src/ability/decompiler/decompiler.py`) and its
two ABI call-data decoders (`src/ability/ethereum/input_decoder.py` and
`src/ability/ethereum/client.py`), together with theorems settling the
specification claims about them.

Modelling conventions:
* Python strings are embedded as `List Char` (`PyStr`); Python byte strings as
  `List Nat` (each entry < 256).  Python slices `s[a:b]` become
  `(s.drop a).take (b - a)`, which reproduces Python's silent truncation.
* Python dicts with string keys are embedded as insertion-ordered association
  lists with first-match lookup and update-in-place-or-append assignment
  (`dictGet` / `dictSet`), which reproduces CPython's ordered-dict semantics.
* Python values flowing through the decoders are embedded as `PyVal`.
* Machine integers do not occur; Python's unbounded `int` is `Nat` (all the
  integers built by this code are nonnegative hex parses).
-/

set_option maxRecDepth 20000

abbrev PyStr := List Char

/-- Embed a Lean string literal as a Python string (list of characters). -/
def lit (s : String) : PyStr := s.data

/-- Python truthiness / inequality helpers use plain list operations. -/
def takeLast (n : Nat) (xs : List Nat) : List Nat := xs.drop (xs.length - n)

/-- Python slice `s[a:b]` on a character string (silently truncating). -/
def pySlice (s : PyStr) (a b : Nat) : PyStr := (s.drop a).take (b - a)

/-- Python slice `b[a:c]` on a byte string (silently truncating). -/
def pySliceBytes (s : List Nat) (a b : Nat) : List Nat := (s.drop a).take (b - a)

/-- `s.startswith(p)` for Python strings. -/
def pyStartsWith (p s : PyStr) : Bool := p.isPrefixOf s

/-- The `if s.startswith("0x"): s = s[2:]` prefix strip used by
`_decode_function_call` and `_enhanced_solidity_fallback`. -/
def stripHex (s : PyStr) : PyStr :=
  if pyStartsWith (lit "0x") s then s.drop 2 else s

/-- Lowercase hexadecimal digit test, mirroring membership in the literal
string `"0123456789abcdef"` used by the decompiler's scanners. -/
def isHexLower (c : Char) : Bool := (('0' ≤ c) && (c ≤ '9')) || (('a' ≤ c) && (c ≤ 'f'))

/-- Hexadecimal digit of either case, as accepted by `int(s, 16)` and
`bytes.fromhex` for the digit positions. -/
def isHexAny (c : Char) : Bool := isHexLower c || (('A' ≤ c) && (c ≤ 'F'))

/-- Numeric value of a hexadecimal digit (0 on non-digits, which the callers
below never reach on their guarded paths). -/
def hexVal (c : Char) : Nat :=
  if ('0' ≤ c) && (c ≤ '9') then c.toNat - 48
  else if ('a' ≤ c) && (c ≤ 'f') then c.toNat - 87
  else if ('A' ≤ c) && (c ≤ 'F') then c.toNat - 55
  else 0

/-- `int(s, 16)` for the strings this code builds: succeeds exactly on
nonempty all-hex-digit strings.  (CPython additionally tolerates surrounding
whitespace, sign characters, a `0x` prefix and interior underscores; none of
those can reach the guarded call sites embedded here.) -/
def pyIntHex? (cs : PyStr) : Option Nat :=
  if (!cs.isEmpty) && cs.all isHexAny then
    some (cs.foldl (fun a c => 16 * a + hexVal c) 0)
  else Option.none

/-- `bytes.fromhex`: fails on odd length or a non-hex character.  (CPython
additionally skips ASCII spaces between bytes; no input exercised below
contains spaces.) -/
def fromHex? : PyStr → Option (List Nat)
  | [] => some []
  | c1 :: c2 :: rest =>
    if isHexAny c1 && isHexAny c2 then
      (fromHex? rest).map (fun bs => (16 * hexVal c1 + hexVal c2) :: bs)
    else Option.none
  | _ :: [] => Option.none

/-- `int.from_bytes(bs, "big")`. -/
def beNat (bs : List Nat) : Nat := bs.foldl (fun a b => 256 * a + b) 0

/-- Lowercase hexadecimal digit character for a value < 16. -/
def hexDigitChar (n : Nat) : Char :=
  if n < 10 then Char.ofNat (48 + n) else Char.ofNat (87 + n)

/-- `bytes.hex()`: lowercase hexadecimal rendering of a byte string. -/
def hexOfBytes (bs : List Nat) : PyStr :=
  (bs.map (fun b => [hexDigitChar (b / 16), hexDigitChar (b % 16)])).flatten

/-- Python lexicographic `<=` on strings (prefix rule included). -/
def pyStrLe : PyStr → PyStr → Bool
  | [], _ => true
  | _ :: _, [] => false
  | a :: as, b :: bs => if a < b then true else if b < a then false else pyStrLe as bs

/-- First-match lookup in an association list, as Python dict `get` on the
string-keyed tables embedded below (whose keys are pairwise distinct). -/
def tableGet {α : Type} (table : List (PyStr × α)) (key : PyStr) : Option α :=
  match table with
  | [] => Option.none
  | (k, v) :: rest => if k = key then some v else tableGet rest key

/-- Python values produced by the decoders: strings, (nonnegative) ints,
booleans, lists, `None`, and string-keyed dicts. -/
inductive PyVal where
  | str (s : PyStr)
  | int (n : Nat)
  | bool (b : Bool)
  | list (xs : List PyVal)
  | none
  | obj (fields : List (String × PyVal))

/-- Python dict lookup `d.get(k)`: first (unique) matching key. -/
def dictGet (fields : List (String × PyVal)) (k : String) : Option PyVal :=
  match fields with
  | [] => Option.none
  | (k2, v) :: rest => if k2 = k then some v else dictGet rest k

/-- Python dict assignment `d[k] = v`: update in place, else append, keeping
insertion order. -/
def dictSet (fields : List (String × PyVal)) (k : String) (v : PyVal) :
    List (String × PyVal) :=
  match fields with
  | [] => [(k, v)]
  | (k2, v2) :: rest => if k2 = k then (k2, v) :: rest else (k2, v2) :: dictSet rest k v

/-! ### `InputDecoder` (src/ability/ethereum/input_decoder.py) -/

/-- One entry of a function's `inputs` list: an ABI type and a parameter name. -/
structure AbiInput where
  type : String
  name : String
deriving DecidableEq

/-- A registry entry: function name plus ordered inputs. -/
structure FunctionDef where
  name : PyStr
  inputs : List AbiInput
deriving DecidableEq

/-- The registry `InputDecoder.function_selectors` as seeded by `__init__`. -/
def defaultSelectors : List (PyStr × FunctionDef) :=
  [ (lit "0xa9059cbb",
      { name := lit "transfer",
        inputs := [⟨"address", "recipient"⟩, ⟨"uint256", "amount"⟩] }),
    (lit "0x6a761202",
      { name := lit "execTransaction",
        inputs := [⟨"address", "to"⟩, ⟨"uint256", "value"⟩, ⟨"bytes", "data"⟩,
                   ⟨"uint8", "operation"⟩, ⟨"uint256", "safeTxGas"⟩,
                   ⟨"uint256", "baseGas"⟩, ⟨"uint256", "gasPrice"⟩,
                   ⟨"address", "gasToken"⟩, ⟨"address", "refundReceiver"⟩,
                   ⟨"bytes", "signatures"⟩] }) ]

/-- The typed dispatch of `InputDecoder._decode_parameters`, one input
definition at a time over the byte string `data`.  Offsets and values follow
the source exactly: `address` takes the low 20 bytes of the 32-byte word,
`uint256`/`uint8` read the word big-endian, `bytes` follows a head offset to a
length-prefixed tail, and any other type records an `Unsupported type` string
without advancing the cursor. -/
def idDecodeParamsAux (data : List Nat) :
    Nat → List AbiInput → List (String × PyVal) → List (String × PyVal)
  | _, [], acc => acc
  | offset, inp :: rest, acc =>
    if inp.type = "address" then
      let value := lit "0x" ++ hexOfBytes (takeLast 20 (pySliceBytes data offset (offset + 32)))
      idDecodeParamsAux data (offset + 32) rest (dictSet acc inp.name (PyVal.str value))
    else if inp.type = "uint256" ∨ inp.type = "uint8" then
      let value := beNat (pySliceBytes data offset (offset + 32))
      idDecodeParamsAux data (offset + 32) rest (dictSet acc inp.name (PyVal.int value))
    else if inp.type = "bytes" then
      let dataOffset := beNat (pySliceBytes data offset (offset + 32))
      let len := beNat (pySliceBytes data dataOffset (dataOffset + 32))
      let value := lit "0x" ++ hexOfBytes (pySliceBytes data (dataOffset + 32) (dataOffset + 32 + len))
      idDecodeParamsAux data (offset + 32) rest (dictSet acc inp.name (PyVal.str value))
    else
      idDecodeParamsAux data offset rest
        (dictSet acc inp.name (PyVal.str (lit "Unsupported type: " ++ inp.type.data)))

/-- `InputDecoder._decode_parameters`: converts the hex blob with
`bytes.fromhex` (the only statement in the function that can raise) and then
decodes each input in order. -/
def idDecodeParameters (parameters : PyStr) (inputs : List AbiInput) :
    Except PyStr (List (String × PyVal)) :=
  match fromHex? parameters with
  | Option.none => Except.error (lit "non-hexadecimal number found in fromhex() arg")
  | some data => Except.ok (idDecodeParamsAux data 0 inputs [])

/-- `InputDecoder._decode_function_call` over a registry `reg`: strip the
optional `0x`, split selector/parameters, and produce one of the three result
dict shapes of the source (registry miss, successful decode, or the caught
parameter-decoding failure). -/
def decodeFunctionCall (reg : List (PyStr × FunctionDef)) (input : PyStr) : PyVal :=
  let s := stripHex input
  let sel := s.take 8
  let params := s.drop 8
  match tableGet reg (lit "0x" ++ sel) with
  | Option.none =>
    PyVal.obj [("function_selector", PyVal.str (lit "0x" ++ sel)),
               ("raw_parameters", PyVal.str params)]
  | some fd =>
    match idDecodeParameters params fd.inputs with
    | Except.ok decoded =>
      PyVal.obj [("function", PyVal.str fd.name), ("params", PyVal.obj decoded)]
    | Except.error e =>
      PyVal.obj [("function", PyVal.str fd.name),
                 ("error", PyVal.str (lit "Parameter decoding failed: " ++ e)),
                 ("raw_parameters", PyVal.str params)]

/-- `result.get("params", {}).get("data")` from `InputDecoder.decode_input`. -/
def nestedDataOf (fields : List (String × PyVal)) : Option PyVal :=
  match dictGet fields "params" with
  | some (PyVal.obj p) => dictGet p "data"
  | _ => Option.none

/-- The `0x`-prefix normalization at the top of `InputDecoder.decode_input`. -/
def normInput (input : PyStr) : PyStr :=
  if pyStartsWith (lit "0x") input then input else lit "0x" ++ input

/-- The `execTransaction` special case of `InputDecoder.decode_input`: when
the decoded function is `execTransaction` and its `data` parameter is a
truthy string different from `"0x"`, attach one nested
`_decode_function_call` of that blob under the key `nested_call`; otherwise
return the result unchanged.  (A non-string truthy `data` value — possible
only under a runtime-extended registry entry named `execTransaction` whose
`data` input is integer-typed and decodes to a nonzero value — would make
CPython raise inside the nested call and fall into `decode_input`'s outer
`except`; no theorem below depends on that unreachable corner, and integer
`data` values are `0`, hence falsy, on every input they consider.) -/
def attachNested (reg : List (PyStr × FunctionDef)) (fields : List (String × PyVal)) : PyVal :=
  match dictGet fields "function" with
  | some (PyVal.str f) =>
    if f = lit "execTransaction" then
      match nestedDataOf fields with
      | some (PyVal.str d) =>
        if d ≠ [] ∧ d ≠ lit "0x" then
          PyVal.obj (dictSet fields "nested_call" (decodeFunctionCall reg d))
        else PyVal.obj fields
      | _ => PyVal.obj fields
    else PyVal.obj fields
  | _ => PyVal.obj fields

/-- `InputDecoder.decode_input` with no `contract_source` argument: normalize
the `0x` prefix, reject inputs shorter than 10 characters, decode the call,
and apply the `execTransaction` nesting step. -/
def decodeInput (reg : List (PyStr × FunctionDef)) (input : PyStr) : PyVal :=
  let norm := normInput input
  if norm.length < 10 then
    PyVal.obj [("error", PyVal.str (lit "Invalid input data"))]
  else
    match decodeFunctionCall reg norm with
    | PyVal.obj fields => attachNested reg fields
    | v => v

/-! ### Decompiler (src/ability/decompiler/decompiler.py) -/

/-- Python `str.lower` restricted to ASCII.  (CPython lowercases the full
Unicode range, but no character outside ASCII lowercases into the ASCII hex
range used by the opcode table, so the two agree on every lookup below.) -/
def pyToLower (c : Char) : Char :=
  if ('A' ≤ c) && (c ≤ 'Z') then Char.ofNat (c.toNat + 32) else c

/-- `int(op, 16)` for a two-character opcode key already validated against the
opcode table (so both characters are lowercase hex digits). -/
def hexPairVal (op : PyStr) : Nat := op.foldl (fun a c => 16 * a + hexVal c) 0

/-- The `opcodes` dict of `_disassemble_opcodes`, verbatim. -/
def opcodeTable : List (PyStr × PyStr) :=
  [ (lit "00", lit "STOP"), (lit "01", lit "ADD"), (lit "02", lit "MUL"),
    (lit "03", lit "SUB"), (lit "04", lit "DIV"), (lit "05", lit "SDIV"),
    (lit "06", lit "MOD"), (lit "07", lit "SMOD"), (lit "08", lit "ADDMOD"),
    (lit "09", lit "MULMOD"), (lit "0a", lit "EXP"), (lit "0b", lit "SIGNEXTEND"),
    (lit "10", lit "LT"), (lit "11", lit "GT"), (lit "12", lit "SLT"),
    (lit "13", lit "SGT"), (lit "14", lit "EQ"), (lit "15", lit "ISZERO"),
    (lit "16", lit "AND"), (lit "17", lit "OR"), (lit "18", lit "XOR"),
    (lit "19", lit "NOT"), (lit "1a", lit "BYTE"), (lit "1b", lit "SHL"),
    (lit "1c", lit "SHR"), (lit "1d", lit "SAR"), (lit "20", lit "SHA3"),
    (lit "30", lit "ADDRESS"), (lit "31", lit "BALANCE"), (lit "32", lit "ORIGIN"),
    (lit "33", lit "CALLER"), (lit "34", lit "CALLVALUE"), (lit "35", lit "CALLDATALOAD"),
    (lit "36", lit "CALLDATASIZE"), (lit "37", lit "CALLDATACOPY"), (lit "38", lit "CODESIZE"),
    (lit "39", lit "CODECOPY"), (lit "3a", lit "GASPRICE"), (lit "3b", lit "EXTCODESIZE"),
    (lit "3c", lit "EXTCODECOPY"), (lit "3d", lit "RETURNDATASIZE"),
    (lit "3e", lit "RETURNDATACOPY"), (lit "3f", lit "EXTCODEHASH"),
    (lit "40", lit "BLOCKHASH"), (lit "41", lit "COINBASE"), (lit "42", lit "TIMESTAMP"),
    (lit "43", lit "NUMBER"), (lit "44", lit "DIFFICULTY"), (lit "45", lit "GASLIMIT"),
    (lit "50", lit "POP"), (lit "51", lit "MLOAD"), (lit "52", lit "MSTORE"),
    (lit "53", lit "MSTORE8"), (lit "54", lit "SLOAD"), (lit "55", lit "SSTORE"),
    (lit "56", lit "JUMP"), (lit "57", lit "JUMPI"), (lit "58", lit "PC"),
    (lit "59", lit "MSIZE"), (lit "5a", lit "GAS"), (lit "5b", lit "JUMPDEST"),
    (lit "60", lit "PUSH1"), (lit "61", lit "PUSH2"), (lit "62", lit "PUSH3"),
    (lit "63", lit "PUSH4"), (lit "64", lit "PUSH5"), (lit "65", lit "PUSH6"),
    (lit "66", lit "PUSH7"), (lit "67", lit "PUSH8"), (lit "68", lit "PUSH9"),
    (lit "69", lit "PUSH10"), (lit "6a", lit "PUSH11"), (lit "6b", lit "PUSH12"),
    (lit "6c", lit "PUSH13"), (lit "6d", lit "PUSH14"), (lit "6e", lit "PUSH15"),
    (lit "6f", lit "PUSH16"), (lit "70", lit "PUSH17"), (lit "71", lit "PUSH18"),
    (lit "72", lit "PUSH19"), (lit "73", lit "PUSH20"), (lit "74", lit "PUSH21"),
    (lit "75", lit "PUSH22"), (lit "76", lit "PUSH23"), (lit "77", lit "PUSH24"),
    (lit "78", lit "PUSH25"), (lit "79", lit "PUSH26"), (lit "7a", lit "PUSH27"),
    (lit "7b", lit "PUSH28"), (lit "7c", lit "PUSH29"), (lit "7d", lit "PUSH30"),
    (lit "7e", lit "PUSH31"), (lit "7f", lit "PUSH32"),
    (lit "80", lit "DUP1"), (lit "81", lit "DUP2"), (lit "82", lit "DUP3"),
    (lit "83", lit "DUP4"), (lit "84", lit "DUP5"), (lit "85", lit "DUP6"),
    (lit "86", lit "DUP7"), (lit "87", lit "DUP8"), (lit "88", lit "DUP9"),
    (lit "89", lit "DUP10"), (lit "8a", lit "DUP11"), (lit "8b", lit "DUP12"),
    (lit "8c", lit "DUP13"), (lit "8d", lit "DUP14"), (lit "8e", lit "DUP15"),
    (lit "8f", lit "DUP16"),
    (lit "90", lit "SWAP1"), (lit "91", lit "SWAP2"), (lit "92", lit "SWAP3"),
    (lit "93", lit "SWAP4"), (lit "94", lit "SWAP5"), (lit "95", lit "SWAP6"),
    (lit "96", lit "SWAP7"), (lit "97", lit "SWAP8"), (lit "98", lit "SWAP9"),
    (lit "99", lit "SWAP10"), (lit "9a", lit "SWAP11"), (lit "9b", lit "SWAP12"),
    (lit "9c", lit "SWAP13"), (lit "9d", lit "SWAP14"), (lit "9e", lit "SWAP15"),
    (lit "9f", lit "SWAP16"),
    (lit "a0", lit "LOG0"), (lit "a1", lit "LOG1"), (lit "a2", lit "LOG2"),
    (lit "a3", lit "LOG3"), (lit "a4", lit "LOG4"),
    (lit "f0", lit "CREATE"), (lit "f1", lit "CALL"), (lit "f2", lit "CALLCODE"),
    (lit "f3", lit "RETURN"), (lit "f4", lit "DELEGATECALL"), (lit "f5", lit "CREATE2"),
    (lit "fa", lit "STATICCALL"), (lit "fd", lit "REVERT"), (lit "fe", lit "INVALID"),
    (lit "ff", lit "SELFDESTRUCT") ]

/-- The loop body of `_disassemble_opcodes` over the remaining character
stream, instrumented in two ways.  First, each emitted instruction string is
paired with a flag that is `true` exactly when it was produced by the
incomplete-PUSH branch (which also terminates the scan by setting
`i = len(bytecode)`).  Second, the recursion is driven by a structural fuel
counter: every loop iteration consumes at least one character (two, in
fact), so any fuel of at least the remaining length reproduces the loop
exactly (`disasmGo_fuel` below).  The source function is
`disassembleOpcodes`, the first projection of `disasmAux`. -/
def disasmGo : Nat → PyStr → List (PyStr × Bool)
  | 0, _ => []
  | _ + 1, [] => []
  | fuel + 1, c1 :: rest =>
    let op := ((c1 :: rest).take 2).map pyToLower
    match tableGet opcodeTable op with
    | Option.none =>
      (lit "0x" ++ op ++ lit " (UNKNOWN)", false) :: disasmGo fuel (rest.drop 1)
    | some name =>
      if pyStrLe (lit "60") op && pyStrLe op (lit "7f") then
        let w := hexPairVal op - 96 + 1
        if 2 + 2 * w ≤ (c1 :: rest).length then
          (lit "0x" ++ op ++ lit " " ++ name ++ lit " 0x" ++ pySlice (c1 :: rest) 2 (2 + 2 * w),
            false) :: disasmGo fuel (rest.drop (1 + 2 * w))
        else
          [(lit "0x" ++ op ++ lit " " ++ name ++ lit " (incomplete)", true)]
      else
        (lit "0x" ++ op ++ lit " " ++ name, false) :: disasmGo fuel (rest.drop 1)

/-- The instrumented `_disassemble_opcodes` loop, with exactly enough fuel. -/
def disasmAux (bc : PyStr) : List (PyStr × Bool) := disasmGo bc.length bc

/-- `_disassemble_opcodes`: the list of instruction description strings. -/
def disassembleOpcodes (bytecode : PyStr) : List PyStr :=
  (disasmAux bytecode).map Prod.fst

/-- The `known_selectors` dict of `_extract_function_selectors`, verbatim. -/
def knownSelectorsTable : List (PyStr × PyStr) :=
  [ (lit "a9059cbb", lit "transfer(address,uint256)"),
    (lit "095ea7b3", lit "approve(address,uint256)"),
    (lit "23b872dd", lit "transferFrom(address,address,uint256)"),
    (lit "70a08231", lit "balanceOf(address)"),
    (lit "18160ddd", lit "totalSupply()"),
    (lit "313ce567", lit "decimals()"),
    (lit "06fdde03", lit "name()"),
    (lit "95d89b41", lit "symbol()"),
    (lit "dd62ed3e", lit "allowance(address,address)") ]

/-- The scan loop of `_extract_function_selectors` over the remaining
character stream.  The loop guard `i < len(bytecode) - 10` is exactly
`10 < remaining`; a `"63"` pair always advances by 10 characters, recording a
selector only when the following 8 characters are lowercase hex; every other
pair advances by 2 characters. -/
def extractSelectorsAux (rem : PyStr) : List (PyStr × Option PyStr) :=
  if h : 10 < rem.length then
    if rem.take 2 = lit "63" then
      let pot := (rem.drop 2).take 8
      (if pot.length = 8 ∧ pot.all isHexLower then
        [(pot, tableGet knownSelectorsTable pot)]
       else []) ++ extractSelectorsAux (rem.drop 10)
    else
      extractSelectorsAux (rem.drop 2)
  else []
termination_by rem.length
decreasing_by
  all_goals simp [List.length_drop]; omega

/-- `_extract_function_selectors` (input already has no `0x` prefix). -/
def extractFunctionSelectors (bytecode : PyStr) : List (PyStr × Option PyStr) :=
  extractSelectorsAux bytecode

/-- The inner backward loop of `_extract_storage_slots`: from character index
`b` (initially `i - 2`), while `b >= 0 and b > i - 70`, look for the first
pair in the string range `"60".."7f"`; on a hit, extract that push's
immediate and record it iff it is nonempty lowercase hex, then stop either
way.  On the hit branch the source calls `int(opcode, 16)`, which cannot fail
when the bytecode consists of hex characters (the only inputs the theorems
below consider; on other inputs CPython would raise `ValueError` there). -/
def backScan (bc : PyStr) (i : Nat) (b : Nat) : Option PyStr :=
  if h : b + 70 > i then
    if pyStrLe (lit "60") (pySlice bc b (b + 2)) &&
        pyStrLe (pySlice bc b (b + 2)) (lit "7f") then
      if (!(pySlice bc (b + 2) (b + 2 + (hexPairVal (pySlice bc b (b + 2)) - 96 + 1) * 2)).isEmpty) &&
          (pySlice bc (b + 2) (b + 2 + (hexPairVal (pySlice bc b (b + 2)) - 96 + 1) * 2)).all
            isHexLower then
        some (pySlice bc (b + 2) (b + 2 + (hexPairVal (pySlice bc b (b + 2)) - 96 + 1) * 2))
      else Option.none
    else if h2 : 2 ≤ b then backScan bc i (b - 2) else Option.none
  else Option.none
termination_by b
decreasing_by
  all_goals omega

/-- The outer loop of `_extract_storage_slots`: scan character index `i`
while `i < len(bytecode) - 4`; at an `"54"`/`"55"` pair start the backward
scan at `b = i - 2` (skipped entirely when `i < 2`, as in the source where
`back_index` starts negative). -/
def storageSlotsAux (bc : PyStr) (i : Nat) : List PyStr :=
  if h : i + 4 < bc.length then
    (match
      (if pySlice bc i (i + 2) = lit "54" ∨ pySlice bc i (i + 2) = lit "55" then
        (if 2 ≤ i then backScan bc i (i - 2) else Option.none)
       else Option.none) with
     | some s => [s]
     | Option.none => []) ++ storageSlotsAux bc (i + 2)
  else []
termination_by bc.length - i
decreasing_by
  all_goals omega

/-- `_extract_storage_slots` before the final `list(set(...))`
deduplication: the guesses in scan order, one per recording SLOAD/SSTORE
occurrence. -/
def extractStorageSlotsRaw (bytecode : PyStr) : List PyStr :=
  storageSlotsAux bytecode 0

/-- `"\n".join(xs)`-style joining. -/
def pyJoin (sep : PyStr) (xs : List PyStr) : PyStr :=
  match xs with
  | [] => []
  | x :: rest => x ++ (rest.map (fun y => sep ++ y)).flatten

/-- Decimal rendering of a `Nat`, as Python interpolates loop indices. -/
def natToDec (n : Nat) : PyStr := Nat.toDigits 10 n

/-- The storage-variable stub block of `_enhanced_solidity_fallback`. -/
def storageSection (slots : List PyStr) : PyStr :=
  if slots.isEmpty then []
  else
    lit "    // Detected storage variables\n" ++
    (slots.enum.map (fun p =>
      lit "    uint256 private _storage" ++ natToDec p.1 ++ lit "; // slot: " ++ p.2 ++
      lit "\n")).flatten ++
    lit "\n"

/-- The function-selector stub block of `_enhanced_solidity_fallback`. -/
def selectorSection (sels : List (PyStr × Option PyStr)) : PyStr :=
  if sels.isEmpty then []
  else
    lit "    // Detected function selectors\n" ++
    (sels.map (fun p =>
      (match p.2 with
       | some sig => lit "    // Function: " ++ sig ++ lit "\n"
       | Option.none => []) ++
      lit "    // Selector: 0x" ++ p.1 ++ lit "\n" ++
      lit "    function func_" ++ p.1 ++ lit "() public \x7b\n" ++
      lit "        // Implementation details not available\n" ++
      lit "    \x7d\n\n")).flatten

/-- Everything `_enhanced_solidity_fallback` emits before the trailing
disassembly comment.  The source's `list(set(storage_slots))` enumerates a
Python set, whose order CPython leaves unspecified; that order is abstracted
as the `setList` parameter (the claims below hold for every order). -/
def fallbackPrefixPart (setList : List PyStr → List PyStr) (bc : PyStr) : PyStr :=
  lit "// Fallback decompilation - simplified Solidity representation\n\n" ++
  lit "pragma solidity ^0.8.0;\n\n" ++
  lit "contract DecompiledContract \x7b\n" ++
  storageSection (setList (extractStorageSlotsRaw bc)) ++
  selectorSection (extractFunctionSelectors bc) ++
  lit "    // Fallback function\n" ++
  lit "    fallback() external payable \x7b\n" ++
  lit "        // Implementation details not available\n" ++
  lit "    \x7d\n\n" ++
  lit "    // Receive function\n" ++
  lit "    receive() external payable \x7b\x7d\n" ++
  lit "\x7d\n\n"

/-- The trailing disassembly comment of `_enhanced_solidity_fallback`: the
first 100 instructions joined by newlines, plus the truncation marker exactly
when more than 100 exist. -/
def opcodesTrailer (ops : List PyStr) : PyStr :=
  lit "/*\nDisassembled Opcodes (first 100):\n" ++
  pyJoin (lit "\n") (ops.take 100) ++
  (if 100 < ops.length then lit "\n...(truncated)" else []) ++
  lit "\n*/\n"

/-- `_enhanced_solidity_fallback`: strip an optional `0x` prefix, run the two
heuristic scans and the disassembler, and compose the pseudo-Solidity text. -/
def enhancedSolidityFallback (setList : List PyStr → List PyStr) (bytecode : PyStr) : PyStr :=
  let bc := stripHex bytecode
  fallbackPrefixPart setList bc ++ opcodesTrailer (disassembleOpcodes bc)

/-- One backend attempt inside `decompile_bytecode`: when the `which` check
fails the backend returns `None` (silent skip); otherwise the subprocess
interaction is abstracted as `run`, with `None` covering every decline
(non-zero exit, empty stdout, timeout, or a caught exception). -/
def backendResult (avail : Bool) (run : PyStr → Option PyStr) (bc : PyStr) : Option PyStr :=
  if avail then run bc else Option.none

/-- The `if decompiled: return decompiled` pattern of `decompile_bytecode`:
a backend result is used iff it is a truthy (non-`None`, nonempty) string. -/
def pickDecompiled (r : Option PyStr) (next : PyStr) : PyStr :=
  match r with
  | some d => if d.isEmpty then next else d
  | Option.none => next

/-- `decompile_bytecode`: try heimdall, panoramix and ethersplay in order,
falling through to `_enhanced_solidity_fallback`.  The outer `except` branch
(reached only if some step raises) is not reachable for hex bytecode, the
domain of the theorems below, because every operation of the fallback path is
total there. -/
def decompileBytecode (availH availP availE : Bool)
    (runH runP runE : PyStr → Option PyStr)
    (setList : List PyStr → List PyStr) (bytecode : PyStr) : PyStr :=
  pickDecompiled (backendResult availH runH bytecode)
    (pickDecompiled (backendResult availP runP bytecode)
      (pickDecompiled (backendResult availE runE bytecode)
        (enhancedSolidityFallback setList bytecode)))

/-! ### `EthereumClient` decoding (src/ability/ethereum/client.py) -/

/-- Python `s[:-n]`. -/
def dropLastN {α : Type} (n : Nat) (xs : List α) : List α := xs.take (xs.length - n)

/-- `s.endswith(p)` for Python strings. -/
def pyEndsWith (p s : PyStr) : Bool := p.isSuffixOf s

/-- Python `[-n:]` on a character string. -/
def takeLastC (n : Nat) (s : PyStr) : PyStr := s.drop (s.length - n)

/-- One character of the EIP-55 transform: hex letters are uppercased exactly
when the corresponding keccak nibble is at least 8; digits are untouched. -/
def eip55Char (nib : Nat) (c : Char) : Char :=
  if c.isAlpha then (if 8 ≤ nib then c.toUpper else c) else c

/-- Modelled behaviour of the third-party `Web3.to_checksum_address` on a
`0x`-prefixed 40-hex-digit address, per EIP-55 (spec glossary: "mixed-case hex
rendering of a 20-byte address per a standard capitalization transform").
The keccak-256 hash of the lowercase address body is abstracted as the nibble
oracle `keccak`; the claims below hold for every oracle. -/
def toChecksumAddress (keccak : PyStr → Nat → Nat) (addr : PyStr) : PyStr :=
  let body := (addr.drop 2).map pyToLower
  lit "0x" ++ body.enum.map (fun p => eip55Char (keccak body p.1) p.2)

/-- The `try: Web3.to_checksum_address(address) except: pass` pattern: the
library call succeeds on a well-formed hex address and is skipped (leaving the
raw lowercase string) otherwise. -/
def checksumOrRaw (keccak : PyStr → Nat → Nat) (addr : PyStr) : PyStr :=
  if addr.length = 42 && pyStartsWith (lit "0x") addr && (addr.drop 2).all isHexAny then
    toChecksumAddress keccak addr
  else addr

/-- Round `a / b` to the nearest integer, ties to even. -/
def roundHalfEven (a b : Nat) : Nat :=
  let q := a / b
  let r := a % b
  if 2 * r < b then q
  else if b < 2 * r then q + 1
  else if q % 2 = 0 then q else q + 1

/-- Left-pad a digit string with zeros to width `n`. -/
def padLeftZeros (n : Nat) (s : PyStr) : PyStr := List.replicate (n - s.length) '0' ++ s

/-- Fixed-point rendering `f"{num/den:.d f}"` in exact arithmetic. -/
def fmtFixed (d : Nat) (num den : Nat) : PyStr :=
  let scaled := roundHalfEven (num * 10 ^ d) den
  natToDec (scaled / 10 ^ d) ++ lit "." ++ padLeftZeros d (natToDec (scaled % 10 ^ d))

/-- Python `s.rstrip(c)` for a single strip character. -/
def rstripChar (c : Char) (s : PyStr) : PyStr := (s.reverse.dropWhile (fun x => x = c)).reverse

/-- `EthereumClient._format_token_amount`.  CPython evaluates
`amount / 10**18` in IEEE-754 double precision; this model uses exact
arithmetic instead.  The two agree whenever the binary rounding of the
quotient does not cross an integer or a rendered decimal digit — in
particular at `amount = 10 ** 18`, the only amount the claims below format,
where the quotient is exactly `1.0` in both semantics. -/
def formatTokenAmount (amount : Nat) : PyStr :=
  if amount = 0 then lit "0"
  else if 10 ^ 18 ≤ amount then
    if amount % 10 ^ 18 = 0 then natToDec (amount / 10 ^ 18)
    else fmtFixed 6 amount (10 ^ 18)
  else rstripChar '.' (rstripChar '0' (fmtFixed 18 amount (10 ^ 18)))

/-- The element loop of the array branch of `EthereumClient._decode_parameters`:
`array_length` iterations from `current_offset`, each consuming 64 characters
when available; a truncated `address`/`uint` element records `None` without
advancing, any other base type slices unconditionally. -/
def clientArrayElems (keccak : PyStr → Nat → Nat) (parameters : PyStr) (baseType : PyStr) :
    Nat → Nat → Except PyStr (List PyVal)
  | 0, _ => Except.ok []
  | n + 1, cur =>
    if baseType = lit "address" then
      if cur + 64 ≤ parameters.length then
        let addr := checksumOrRaw keccak (lit "0x" ++ takeLastC 40 (pySlice parameters cur (cur + 64)))
        (clientArrayElems keccak parameters baseType n (cur + 64)).map (PyVal.str addr :: ·)
      else (clientArrayElems keccak parameters baseType n cur).map (PyVal.none :: ·)
    else if pyStartsWith (lit "uint") baseType then
      if cur + 64 ≤ parameters.length then
        match pyIntHex? (pySlice parameters cur (cur + 64)) with
        | some v => (clientArrayElems keccak parameters baseType n (cur + 64)).map (PyVal.int v :: ·)
        | Option.none => Except.error (lit "invalid literal for int() with base 16")
      else (clientArrayElems keccak parameters baseType n cur).map (PyVal.none :: ·)
    else
      (clientArrayElems keccak parameters baseType n (cur + 64)).map
        (PyVal.str (lit "0x" ++ pySlice parameters cur (cur + 64)) :: ·)

/-- `EthereumClient._decode_parameters`: the typed head cursor walk over the
hex character string.  Every branch first checks `offset + 64 <= len`,
recording `None` (or `[]` for an array type) without advancing when it fails;
`int(..., 16)` raising on a non-hex slice is the `Except.error` case, caught
by the caller. -/
def clientDecodeParamsAux (keccak : PyStr → Nat → Nat) (parameters : PyStr) :
    Nat → List PyStr → Except PyStr (List PyVal)
  | _, [] => Except.ok []
  | offset, t :: rest =>
    if t = lit "address" then
      if offset + 64 ≤ parameters.length then
        let addr := checksumOrRaw keccak
          (lit "0x" ++ takeLastC 40 (pySlice parameters offset (offset + 64)))
        (clientDecodeParamsAux keccak parameters (offset + 64) rest).map (PyVal.str addr :: ·)
      else (clientDecodeParamsAux keccak parameters offset rest).map (PyVal.none :: ·)
    else if pyStartsWith (lit "uint") t then
      if offset + 64 ≤ parameters.length then
        match pyIntHex? (pySlice parameters offset (offset + 64)) with
        | some v => (clientDecodeParamsAux keccak parameters (offset + 64) rest).map (PyVal.int v :: ·)
        | Option.none => Except.error (lit "invalid literal for int() with base 16")
      else (clientDecodeParamsAux keccak parameters offset rest).map (PyVal.none :: ·)
    else if t = lit "bool" then
      if offset + 64 ≤ parameters.length then
        let v := decide (pySlice parameters offset (offset + 64) ≠ List.replicate 64 '0')
        (clientDecodeParamsAux keccak parameters (offset + 64) rest).map (PyVal.bool v :: ·)
      else (clientDecodeParamsAux keccak parameters offset rest).map (PyVal.none :: ·)
    else if t = lit "bytes" then
      if offset + 64 ≤ parameters.length then
        match pyIntHex? (pySlice parameters offset (offset + 64)) with
        | Option.none => Except.error (lit "invalid literal for int() with base 16")
        | some d0 =>
          let dOff := d0 * 2
          if dOff + 64 ≤ parameters.length then
            match pyIntHex? (pySlice parameters dOff (dOff + 64)) with
            | Option.none => Except.error (lit "invalid literal for int() with base 16")
            | some l0 =>
              let len := l0 * 2
              if dOff + 64 + len ≤ parameters.length then
                (clientDecodeParamsAux keccak parameters (offset + 64) rest).map
                  (PyVal.str (lit "0x" ++ pySlice parameters (dOff + 64) (dOff + 64 + len)) :: ·)
              else (clientDecodeParamsAux keccak parameters (offset + 64) rest).map (PyVal.none :: ·)
          else (clientDecodeParamsAux keccak parameters (offset + 64) rest).map (PyVal.none :: ·)
      else (clientDecodeParamsAux keccak parameters offset rest).map (PyVal.none :: ·)
    else if pyEndsWith (lit "[]") t then
      let base := dropLastN 2 t
      if offset + 64 ≤ parameters.length then
        match pyIntHex? (pySlice parameters offset (offset + 64)) with
        | Option.none => Except.error (lit "invalid literal for int() with base 16")
        | some a0 =>
          let aOff := a0 * 2
          if aOff + 64 ≤ parameters.length then
            match pyIntHex? (pySlice parameters aOff (aOff + 64)) with
            | Option.none => Except.error (lit "invalid literal for int() with base 16")
            | some alen =>
              match clientArrayElems keccak parameters base alen (aOff + 64) with
              | Except.error e => Except.error e
              | Except.ok items =>
                (clientDecodeParamsAux keccak parameters (offset + 64) rest).map
                  (PyVal.list items :: ·)
          else (clientDecodeParamsAux keccak parameters (offset + 64) rest).map
                 (PyVal.list [] :: ·)
      else (clientDecodeParamsAux keccak parameters offset rest).map (PyVal.list [] :: ·)
    else
      if offset + 64 ≤ parameters.length then
        (clientDecodeParamsAux keccak parameters (offset + 64) rest).map
          (PyVal.str (lit "0x" ++ pySlice parameters offset (offset + 64)) :: ·)
      else (clientDecodeParamsAux keccak parameters offset rest).map (PyVal.none :: ·)

/-- `EthereumClient._decode_parameters` entry point. -/
def clientDecodeParameters (keccak : PyStr → Nat → Nat) (parameters : PyStr)
    (paramTypes : List PyStr) : Except PyStr (List PyVal) :=
  clientDecodeParamsAux keccak parameters 0 paramTypes

/-- The `while len(param_names) < len(param_types)` padding of
`_format_parameters`: the loop appends `param{len(names)}`, then
`param{len(names)+1}`, ..., stopping at length `k`, i.e. it appends exactly
the names `param{n}` for `n` from the original length up to `k - 1`. -/
def padNames (names : List String) (k : Nat) : List String :=
  names ++ ((List.range k).drop names.length).map (fun n => "param" ++ toString n)

/-- Python `zip` over three lists (stopping at the shortest). -/
def zip3 {α β γ : Type} : List α → List β → List γ → List (α × β × γ)
  | a :: as, b :: bs, c :: cs => (a, b, c) :: zip3 as bs cs
  | _, _, _ => []

/-- The per-parameter formatting of `_format_parameters`: `uint256` ints gain
a raw/formatted pair, arrays are formatted per base type with `None` elements
dropped, everything else passes through. -/
def formatOneParam (t : PyStr) (value : PyVal) : PyVal :=
  if t = lit "uint256" then
    match value with
    | PyVal.int n =>
      PyVal.obj [("raw", PyVal.int n), ("formatted", PyVal.str (formatTokenAmount n))]
    | _ => value
  else if pyEndsWith (lit "[]") t then
    match value with
    | PyVal.list xs =>
      let base := dropLastN 2 t
      if base = lit "address" then
        PyVal.list (xs.filterMap (fun x => match x with
          | PyVal.none => Option.none
          | a => some (PyVal.obj [("address", a)])))
      else if pyStartsWith (lit "uint") base then
        PyVal.list (xs.filterMap (fun x => match x with
          | PyVal.none => Option.none
          | PyVal.int n =>
            some (PyVal.obj [("raw", PyVal.int n), ("formatted", PyVal.str (formatTokenAmount n))])
          | a => some a))  -- unreachable: uint arrays only hold ints and None
      else PyVal.list xs
    | _ => value
  else value

/-- `EthereumClient._format_parameters`. -/
def formatParameters (params : List PyVal) (types : List PyStr) (names : List String) :
    List (String × PyVal) :=
  let padded := padNames names types.length
  (zip3 params padded types).foldl
    (fun acc p => dictSet acc p.2.1 (formatOneParam p.2.2 p.1)) []

/-- A `known_selectors` entry of `EthereumClient._decode_transaction_input`. -/
structure ClientFuncInfo where
  name : PyStr
  signature : PyStr
  description : PyStr
  paramTypes : List PyStr
  paramNames : List String
deriving DecidableEq

/-- The `known_selectors` dict of `_decode_transaction_input`, verbatim. -/
def clientKnownSelectors : List (PyStr × ClientFuncInfo) :=
  [ (lit "0xa9059cbb",
      ⟨lit "transfer", lit "transfer(address,uint256)", lit "ERC20 token transfer",
        [lit "address", lit "uint256"], ["to", "value"]⟩),
    (lit "0x095ea7b3",
      ⟨lit "approve", lit "approve(address,uint256)", lit "ERC20 token approval",
        [lit "address", lit "uint256"], ["spender", "value"]⟩),
    (lit "0x23b872dd",
      ⟨lit "transferFrom", lit "transferFrom(address,address,uint256)", lit "ERC20 transferFrom",
        [lit "address", lit "address", lit "uint256"], ["from", "to", "value"]⟩),
    (lit "0x70a08231",
      ⟨lit "balanceOf", lit "balanceOf(address)", lit "ERC20 balance query",
        [lit "address"], ["account"]⟩),
    (lit "0x18160ddd",
      ⟨lit "totalSupply", lit "totalSupply()", lit "ERC20 total supply query", [], []⟩),
    (lit "0x06fdde03",
      ⟨lit "name", lit "name()", lit "ERC20 token name", [], []⟩),
    (lit "0x95d89b41",
      ⟨lit "symbol", lit "symbol()", lit "ERC20 token symbol", [], []⟩),
    (lit "0x313ce567",
      ⟨lit "decimals", lit "decimals()", lit "ERC20 token decimals", [], []⟩),
    (lit "0x42842e0e",
      ⟨lit "safeTransferFrom", lit "safeTransferFrom(address,address,uint256)",
        lit "ERC721 safe transfer",
        [lit "address", lit "address", lit "uint256"], ["from", "to", "tokenId"]⟩),
    (lit "0xb88d4fde",
      ⟨lit "safeTransferFrom", lit "safeTransferFrom(address,address,uint256,bytes)",
        lit "ERC721 safe transfer with data",
        [lit "address", lit "address", lit "uint256", lit "bytes"],
        ["from", "to", "tokenId", "data"]⟩),
    (lit "0x6352211e",
      ⟨lit "ownerOf", lit "ownerOf(uint256)", lit "ERC721 token owner query",
        [lit "uint256"], ["tokenId"]⟩),
    (lit "0x081812fc",
      ⟨lit "getApproved", lit "getApproved(uint256)", lit "ERC721 get approved address",
        [lit "uint256"], ["tokenId"]⟩),
    (lit "0x8462151c",
      ⟨lit "tokenURI", lit "tokenURI(uint256)", lit "ERC721 token URI",
        [lit "uint256"], ["tokenId"]⟩),
    (lit "0x7ff36ab5",
      ⟨lit "swapExactETHForTokens",
        lit "swapExactETHForTokens(uint256,address[],address,uint256)",
        lit "Uniswap V2: Swap ETH for tokens",
        [lit "uint256", lit "address[]", lit "address", lit "uint256"],
        ["amountOutMin", "path", "to", "deadline"]⟩),
    (lit "0x38ed1739",
      ⟨lit "swapExactTokensForTokens",
        lit "swapExactTokensForTokens(uint256,uint256,address[],address,uint256)",
        lit "Uniswap V2: Swap tokens for tokens",
        [lit "uint256", lit "uint256", lit "address[]", lit "address", lit "uint256"],
        ["amountIn", "amountOutMin", "path", "to", "deadline"]⟩) ]

/-- `EthereumClient._decode_transaction_input`.  The transaction dict enters
only through `tx_dict.get("to")`, abstracted as `txTo`.  For a known selector
the entry's `name`/`signature`/`description` items are copied in dict order,
then parameters are decoded and formatted when the type list is nonempty; a
decoding exception is caught and recorded as `raw_parameters` plus
`decoding_error`.  Unknown selectors get the normal
`description`/`raw_parameters` outcome. -/
def clientDecodeTransactionInput (keccak : PyStr → Nat → Nat) (inputData : PyStr)
    (txTo : Option PyStr) : PyVal :=
  if inputData.isEmpty || inputData = lit "0x" || inputData = lit "0x0" then
    PyVal.obj [("type", PyVal.str (lit "transfer")),
               ("description", PyVal.str (lit "Simple ETH transfer with no additional data"))]
  else
    match txTo with
    | Option.none =>
      PyVal.obj [("type", PyVal.str (lit "contract_creation")),
                 ("description", PyVal.str (lit "Contract creation transaction")),
                 ("bytecode", PyVal.str inputData)]
    | some _ =>
      let fs := inputData.take 10
      let params := inputData.drop 10
      let base := [("type", PyVal.str (lit "contract_interaction")),
                   ("function_selector", PyVal.str fs)]
      match tableGet clientKnownSelectors fs with
      | some fi =>
        let withInfo :=
          dictSet (dictSet (dictSet base "name" (PyVal.str fi.name))
            "signature" (PyVal.str fi.signature)) "description" (PyVal.str fi.description)
        if fi.paramTypes.isEmpty then PyVal.obj withInfo
        else
          match clientDecodeParameters keccak params fi.paramTypes with
          | Except.ok ps =>
            PyVal.obj (dictSet withInfo "parameters"
              (PyVal.obj (formatParameters ps fi.paramTypes fi.paramNames)))
          | Except.error e =>
            PyVal.obj (dictSet (dictSet withInfo "raw_parameters" (PyVal.str params))
              "decoding_error" (PyVal.str e))
      | Option.none =>
        PyVal.obj (dictSet (dictSet base "description" (PyVal.str (lit "Unknown function call")))
          "raw_parameters" (PyVal.str params))

/-! ### Observation helpers and dictionary lemmas -/

/-- Look a key up in a decode-result value (`None` on non-dict values). -/
def pyGet (v : PyVal) (k : String) : Option PyVal :=
  match v with
  | PyVal.obj fields => dictGet fields k
  | _ => Option.none

/-- Two-level lookup `v[k1][k2]`. -/
def pyGet2 (v : PyVal) (k1 k2 : String) : Option PyVal :=
  match pyGet v k1 with
  | some w => pyGet w k2
  | Option.none => Option.none

/-- The value the `EthereumClient._decode_parameters` branch dispatch records
for a parameter whose 64-character head word is unavailable: `None` on every
branch except the array branch, which records `[]`.  The dispatch order is
the source's (so `uint256[]` is caught by the `uint` prefix test, not the
array test). -/
def truncValue (t : PyStr) : PyVal :=
  if t = lit "address" then PyVal.none
  else if pyStartsWith (lit "uint") t then PyVal.none
  else if t = lit "bool" then PyVal.none
  else if t = lit "bytes" then PyVal.none
  else if pyEndsWith (lit "[]") t then PyVal.list []
  else PyVal.none

/-- The value `InputDecoder._decode_parameters` records for each declared
input when the parameter byte string is empty (every slice truncates to
nothing): degraded non-null values, never `None`. -/
def emptyBlobValue (t : String) : PyVal :=
  if t = "address" then PyVal.str (lit "0x")
  else if t = "uint256" ∨ t = "uint8" then PyVal.int 0
  else if t = "bytes" then PyVal.str (lit "0x")
  else PyVal.str (lit "Unsupported type: " ++ t.data)

/-- Hex-character test for a bytecode string after optional `0x` strip: the
accepted bytecode encoding of the spec (section 6). -/
def isHexInput (bc : PyStr) : Bool := (stripHex bc).all isHexAny

theorem dictGet_dictSet (fields : List (String × PyVal)) (k : String) (v : PyVal) :
    dictGet (dictSet fields k v) k = some v := by
  induction fields with
  | nil => simp [dictGet, dictSet]
  | cons p rest ih =>
    by_cases h : p.1 = k
    · simp [dictGet, dictSet, h]
    · simp [dictGet, dictSet, h, ih]

theorem dictGet_dictSet_ne (fields : List (String × PyVal)) (k k2 : String) (v : PyVal)
    (h : k ≠ k2) : dictGet (dictSet fields k v) k2 = dictGet fields k2 := by
  induction fields with
  | nil => simp [dictGet, dictSet, h]
  | cons p rest ih =>
    by_cases h2 : p.1 = k
    · simp [dictGet, dictSet, h2, h]
    · simp [dictGet, dictSet, h2, ih]

theorem normInput_startsWith (input : PyStr) :
    pyStartsWith (lit "0x") (normInput input) = true := by
  unfold normInput
  split
  · assumption
  · have h2 : lit "0x" ++ input = '0' :: 'x' :: input := rfl
    rw [h2]
    simp [pyStartsWith, List.isPrefixOf]

theorem decodeFunctionCall_miss (reg : List (PyStr × FunctionDef)) (input : PyStr)
    (h : tableGet reg (lit "0x" ++ (stripHex input).take 8) = Option.none) :
    decodeFunctionCall reg input =
      PyVal.obj [("function_selector", PyVal.str (lit "0x" ++ (stripHex input).take 8)),
                 ("raw_parameters", PyVal.str ((stripHex input).drop 8))] := by
  unfold decodeFunctionCall
  simp [h]

theorem decodeFunctionCall_ok (reg : List (PyStr × FunctionDef)) (input : PyStr)
    (fd : FunctionDef) (d : List (String × PyVal))
    (h : tableGet reg (lit "0x" ++ (stripHex input).take 8) = some fd)
    (h2 : idDecodeParameters ((stripHex input).drop 8) fd.inputs = Except.ok d) :
    decodeFunctionCall reg input =
      PyVal.obj [("function", PyVal.str fd.name), ("params", PyVal.obj d)] := by
  unfold decodeFunctionCall
  simp [h, h2]

theorem decodeFunctionCall_err (reg : List (PyStr × FunctionDef)) (input : PyStr)
    (fd : FunctionDef) (e : PyStr)
    (h : tableGet reg (lit "0x" ++ (stripHex input).take 8) = some fd)
    (h2 : idDecodeParameters ((stripHex input).drop 8) fd.inputs = Except.error e) :
    decodeFunctionCall reg input =
      PyVal.obj [("function", PyVal.str fd.name),
                 ("error", PyVal.str (lit "Parameter decoding failed: " ++ e)),
                 ("raw_parameters", PyVal.str ((stripHex input).drop 8))] := by
  unfold decodeFunctionCall
  simp [h, h2]

theorem decodeFunctionCall_obj (reg : List (PyStr × FunctionDef)) (input : PyStr) :
    ∃ fields, decodeFunctionCall reg input = PyVal.obj fields := by
  cases h : tableGet reg (lit "0x" ++ (stripHex input).take 8) with
  | none => exact ⟨_, decodeFunctionCall_miss reg input h⟩
  | some fd =>
    cases h2 : idDecodeParameters ((stripHex input).drop 8) fd.inputs with
    | error e => exact ⟨_, decodeFunctionCall_err reg input fd e h h2⟩
    | ok d => exact ⟨_, decodeFunctionCall_ok reg input fd d h h2⟩

theorem decodeFunctionCall_no_nested (reg : List (PyStr × FunctionDef)) (input : PyStr) :
    pyGet (decodeFunctionCall reg input) "nested_call" = Option.none := by
  cases h : tableGet reg (lit "0x" ++ (stripHex input).take 8) with
  | none => rw [decodeFunctionCall_miss reg input h]; simp [pyGet, dictGet]
  | some fd =>
    cases h2 : idDecodeParameters ((stripHex input).drop 8) fd.inputs with
    | error e => rw [decodeFunctionCall_err reg input fd e h h2]; simp [pyGet, dictGet]
    | ok d => rw [decodeFunctionCall_ok reg input fd d h h2]; simp [pyGet, dictGet]

theorem decodeFunctionCall_no_error_of_nil_params (reg : List (PyStr × FunctionDef))
    (input : PyStr) (hp : (stripHex input).drop 8 = []) :
    pyGet (decodeFunctionCall reg input) "error" = Option.none := by
  cases h : tableGet reg (lit "0x" ++ (stripHex input).take 8) with
  | none => rw [decodeFunctionCall_miss reg input h]; simp [pyGet, dictGet]
  | some fd =>
    have h2 : idDecodeParameters ((stripHex input).drop 8) fd.inputs =
        Except.ok (idDecodeParamsAux [] 0 fd.inputs []) := by
      rw [hp]; rfl
    rw [decodeFunctionCall_ok reg input fd _ h h2]
    simp [pyGet, dictGet]

/-- C10: for every input string whose length after `0x`-prefix normalization
is below 10 characters, `InputDecoder.decode_input` returns the dict
`\x7b"error": "Invalid input data"\x7d` (and does not raise), while an input of
exactly 10 normalized characters — a bare 4-byte selector — passes the guard
and decodes normally, with no `error` field in the result. -/
theorem decode_input_length_guard :
    (∀ (reg : List (PyStr × FunctionDef)) (input : PyStr),
        (normInput input).length < 10 →
        decodeInput reg input = PyVal.obj [("error", PyVal.str (lit "Invalid input data"))]) ∧
    (∀ (reg : List (PyStr × FunctionDef)) (input : PyStr),
        (normInput input).length = 10 →
        pyGet (decodeInput reg input) "error" = Option.none) := by
  constructor
  · intro reg input h
    unfold decodeInput
    simp [h]
  · intro reg input h
    have hnorm : ¬ (normInput input).length < 10 := by omega
    have hp : (stripHex (normInput input)).drop 8 = [] := by
      have hsw := normInput_startsWith input
      unfold stripHex
      rw [if_pos hsw, List.drop_drop]
      apply List.drop_eq_nil_of_le
      omega
    obtain ⟨fields, hf⟩ := decodeFunctionCall_obj reg (normInput input)
    have herr : dictGet fields "error" = Option.none := by
      have h3 := decodeFunctionCall_no_error_of_nil_params reg (normInput input) hp
      rw [hf] at h3
      simpa [pyGet] using h3
    unfold decodeInput
    rw [if_neg hnorm, hf]
    show pyGet (attachNested reg fields) "error" = Option.none
    unfold attachNested
    split
    · split
      · split
        · split
          · simp [pyGet, dictGet_dictSet_ne _ _ _ _ (by decide : "nested_call" ≠ "error"), herr]
          · simp [pyGet, herr]
        · simp [pyGet, herr]
      · simp [pyGet, herr]
    · simp [pyGet, herr]

/-- Witness for C10 at the concrete inputs `"0x123456"` (8 normalized
characters, rejected) and `"a9059cbb"` (exactly 10 after normalization,
decoded with no error field). -/
theorem decode_input_length_guard_witness :
    decodeInput defaultSelectors (lit "0x123456") =
      PyVal.obj [("error", PyVal.str (lit "Invalid input data"))] ∧
    pyGet (decodeInput defaultSelectors (lit "a9059cbb")) "error" = Option.none :=
  ⟨decode_input_length_guard.1 defaultSelectors (lit "0x123456") (by decide),
   decode_input_length_guard.2 defaultSelectors (lit "a9059cbb") (by decide)⟩

/-- C7: call data whose 4-byte selector misses the signature registry decodes
to a normal result carrying the selector and the raw parameter characters,
with no error field and without raising — in `InputDecoder._decode_function_call`
for any registry state, and in `EthereumClient._decode_transaction_input` for
its built-in selector table. -/
theorem unknown_selector_normal_result :
    (∀ (reg : List (PyStr × FunctionDef)) (input : PyStr),
        tableGet reg (lit "0x" ++ (stripHex input).take 8) = Option.none →
        decodeFunctionCall reg input =
          PyVal.obj [("function_selector", PyVal.str (lit "0x" ++ (stripHex input).take 8)),
                     ("raw_parameters", PyVal.str ((stripHex input).drop 8))] ∧
        pyGet (decodeFunctionCall reg input) "error" = Option.none) ∧
    (∀ (keccak : PyStr → Nat → Nat) (input toAddr : PyStr),
        input.isEmpty = false → input ≠ lit "0x" → input ≠ lit "0x0" →
        tableGet clientKnownSelectors (input.take 10) = Option.none →
        clientDecodeTransactionInput keccak input (some toAddr) =
          PyVal.obj [("type", PyVal.str (lit "contract_interaction")),
                     ("function_selector", PyVal.str (input.take 10)),
                     ("description", PyVal.str (lit "Unknown function call")),
                     ("raw_parameters", PyVal.str (input.drop 10))] ∧
        pyGet (clientDecodeTransactionInput keccak input (some toAddr)) "decoding_error" =
          Option.none) := by
  constructor
  · intro reg input h
    refine ⟨decodeFunctionCall_miss reg input h, ?_⟩
    rw [decodeFunctionCall_miss reg input h]
    simp [pyGet, dictGet]
  · intro keccak input toAddr h1 h2 h3 h4
    have hmain : clientDecodeTransactionInput keccak input (some toAddr) =
        PyVal.obj [("type", PyVal.str (lit "contract_interaction")),
                   ("function_selector", PyVal.str (input.take 10)),
                   ("description", PyVal.str (lit "Unknown function call")),
                   ("raw_parameters", PyVal.str (input.drop 10))] := by
      unfold clientDecodeTransactionInput
      rw [if_neg (by simp [h1, h2, h3])]
      simp [h4, dictSet]
    refine ⟨hmain, ?_⟩
    rw [hmain]
    simp [pyGet, dictGet]

/-- Witness for C7 at the calldata `"0xdeadbeef0011"`, whose selector
`0xdeadbeef` is in neither registry. -/
theorem unknown_selector_normal_result_witness :
    (decodeFunctionCall defaultSelectors (lit "0xdeadbeef0011") =
      PyVal.obj [("function_selector", PyVal.str (lit "0xdeadbeef")),
                 ("raw_parameters", PyVal.str (lit "0011"))] ∧
     pyGet (decodeFunctionCall defaultSelectors (lit "0xdeadbeef0011")) "error" = Option.none) ∧
    (clientDecodeTransactionInput (fun _ _ => 0) (lit "0xdeadbeef0011") (some (lit "0xa")) =
      PyVal.obj [("type", PyVal.str (lit "contract_interaction")),
                 ("function_selector", PyVal.str (lit "0xdeadbeef")),
                 ("description", PyVal.str (lit "Unknown function call")),
                 ("raw_parameters", PyVal.str (lit "0011"))] ∧
     pyGet (clientDecodeTransactionInput (fun _ _ => 0) (lit "0xdeadbeef0011") (some (lit "0xa")))
       "decoding_error" = Option.none) :=
  ⟨unknown_selector_normal_result.1 defaultSelectors (lit "0xdeadbeef0011") (by decide),
   unknown_selector_normal_result.2 (fun _ _ => 0) (lit "0xdeadbeef0011") (lit "0xa")
     (by decide) (by decide) (by decide) (by decide)⟩

theorem exceptMapOk {e : Except PyStr (List PyVal)} {v : PyVal} {res : List PyVal}
    (h : Except.map (fun l => v :: l) e = Except.ok res) :
    ∃ r, e = Except.ok r ∧ res = v :: r := by
  cases e with
  | error x => simp [Except.map] at h
  | ok r =>
    refine ⟨r, rfl, ?_⟩
    simp [Except.map] at h
    exact h.symm

/-- C1 counterexample: decoding the calldata `0xa9059cbb` (known selector,
empty parameter blob — every declared 32-byte word truncated) through
`InputDecoder.decode_input` records `"0x"` for the address and `0` for the
uint256, both different from an absent/null value, refuting the claim that a
truncated slot is always recorded as null. -/
theorem truncated_slot_null_counterexample :
    decodeInput defaultSelectors (lit "0xa9059cbb") =
      PyVal.obj [("function", PyVal.str (lit "transfer")),
                 ("params", PyVal.obj [("recipient", PyVal.str (lit "0x")),
                                       ("amount", PyVal.int 0)])] ∧
    PyVal.str (lit "0x") ≠ PyVal.none ∧ PyVal.int 0 ≠ PyVal.none := by
  refine ⟨rfl, ?_, ?_⟩ <;> intro h <;> exact PyVal.noConfusion h

theorem hexOfBytes_length (bs : List Nat) : (hexOfBytes bs).length = 2 * bs.length := by
  induction bs with
  | nil => rfl
  | cons b rest ih =>
    simp only [hexOfBytes, List.map_cons, List.flatten_cons, List.length_append, List.length_cons,
      List.length_nil, List.length_cons]
    simp only [hexOfBytes] at ih
    omega

theorem idDecodeParamsAux_cons (data : List Nat) (offset : Nat) (inp : AbiInput)
    (rest : List AbiInput) (acc : List (String × PyVal)) :
    ∃ (w : PyVal) (off2 : Nat),
      idDecodeParamsAux data offset (inp :: rest) acc =
        idDecodeParamsAux data off2 rest (dictSet acc inp.name w) := by
  by_cases h1 : inp.type = "address"
  · refine ⟨PyVal.str (lit "0x" ++ hexOfBytes (takeLast 20 (pySliceBytes data offset (offset + 32)))),
      offset + 32, ?_⟩
    simp [idDecodeParamsAux, h1]
  · by_cases h2 : inp.type = "uint256" ∨ inp.type = "uint8"
    · refine ⟨PyVal.int (beNat (pySliceBytes data offset (offset + 32))), offset + 32, ?_⟩
      simp [idDecodeParamsAux, h1, h2]
    · by_cases h3 : inp.type = "bytes"
      · refine ⟨PyVal.str (lit "0x" ++ hexOfBytes (pySliceBytes data
            (beNat (pySliceBytes data offset (offset + 32)) + 32)
            (beNat (pySliceBytes data offset (offset + 32)) + 32 +
              beNat (pySliceBytes data (beNat (pySliceBytes data offset (offset + 32)))
                (beNat (pySliceBytes data offset (offset + 32)) + 32))))),
          offset + 32, ?_⟩
        simp [idDecodeParamsAux, h1, h2, h3]
      · refine ⟨PyVal.str (lit "Unsupported type: " ++ inp.type.data), offset, ?_⟩
        simp [idDecodeParamsAux, h1, h2, h3]

theorem idDecodeParamsAux_preserves :
    ∀ (inputs : List AbiInput) (data : List Nat) (offset : Nat)
      (acc : List (String × PyVal)) (k : String) (v : PyVal),
      dictGet acc k = some v →
      ∃ v2, dictGet (idDecodeParamsAux data offset inputs acc) k = some v2 := by
  intro inputs
  induction inputs with
  | nil => intro data offset acc k v h; exact ⟨v, h⟩
  | cons inp rest ih =>
    intro data offset acc k v h
    obtain ⟨w, off2, heq⟩ := idDecodeParamsAux_cons data offset inp rest acc
    rw [heq]
    by_cases hk : inp.name = k
    · subst hk
      exact ih data off2 _ inp.name w (dictGet_dictSet acc inp.name w)
    · exact ih data off2 _ k v (by rw [dictGet_dictSet_ne acc inp.name k w hk]; exact h)

/-- C1 (amended): per-slot degradation without aborting.  In
`EthereumClient._decode_parameters`: a decode that completes returns one
value per declared type; a parameter whose 64-character head word is
unavailable is recorded as `None` (an empty list for array types) without
advancing the cursor; a `bytes` parameter whose length word or whose payload
lies past the end of the blob is recorded as `None`; an array parameter
whose data-offset word lies past the end is recorded as an empty list; and
array elements past the end of the blob are each recorded as `None` — in
every case decoding continues with the remaining parameters.  In
`InputDecoder._decode_parameters`: decoding never raises on any blob whose
hex conversion succeeds, every declared input still receives a value, the
fully truncated (empty) blob yields the per-type degraded values (`0`,
`"0x"`), and a truncated address slot retaining only `k < 20` bytes yields a
hex string of length `2 + 2k` — degraded short values, never null. -/
theorem truncated_slot_degrades :
    (∀ (keccak : PyStr → Nat → Nat) (parameters : PyStr) (offset : Nat) (ts : List PyStr)
        (res : List PyVal),
        clientDecodeParamsAux keccak parameters offset ts = Except.ok res →
        res.length = ts.length) ∧
    (∀ (keccak : PyStr → Nat → Nat) (parameters : PyStr) (offset : Nat) (ts : List PyStr),
        parameters.length < offset + 64 →
        clientDecodeParamsAux keccak parameters offset ts = Except.ok (ts.map truncValue)) ∧
    (∀ (keccak : PyStr → Nat → Nat) (parameters : PyStr) (offset : Nat) (rest : List PyStr)
        (d0 : Nat),
        offset + 64 ≤ parameters.length →
        pyIntHex? (pySlice parameters offset (offset + 64)) = some d0 →
        ¬ (d0 * 2 + 64 ≤ parameters.length) →
        clientDecodeParamsAux keccak parameters offset (lit "bytes" :: rest) =
          (clientDecodeParamsAux keccak parameters (offset + 64) rest).map (PyVal.none :: ·)) ∧
    (∀ (keccak : PyStr → Nat → Nat) (parameters : PyStr) (offset : Nat) (rest : List PyStr)
        (d0 l0 : Nat),
        offset + 64 ≤ parameters.length →
        pyIntHex? (pySlice parameters offset (offset + 64)) = some d0 →
        d0 * 2 + 64 ≤ parameters.length →
        pyIntHex? (pySlice parameters (d0 * 2) (d0 * 2 + 64)) = some l0 →
        ¬ (d0 * 2 + 64 + l0 * 2 ≤ parameters.length) →
        clientDecodeParamsAux keccak parameters offset (lit "bytes" :: rest) =
          (clientDecodeParamsAux keccak parameters (offset + 64) rest).map (PyVal.none :: ·)) ∧
    (∀ (keccak : PyStr → Nat → Nat) (parameters : PyStr) (offset : Nat) (t : PyStr)
        (rest : List PyStr) (a0 : Nat),
        t ≠ lit "address" → pyStartsWith (lit "uint") t = false → t ≠ lit "bool" →
        t ≠ lit "bytes" → pyEndsWith (lit "[]") t = true →
        offset + 64 ≤ parameters.length →
        pyIntHex? (pySlice parameters offset (offset + 64)) = some a0 →
        ¬ (a0 * 2 + 64 ≤ parameters.length) →
        clientDecodeParamsAux keccak parameters offset (t :: rest) =
          (clientDecodeParamsAux keccak parameters (offset + 64) rest).map
            (PyVal.list [] :: ·)) ∧
    (∀ (keccak : PyStr → Nat → Nat) (parameters : PyStr) (base : PyStr) (n cur : Nat),
        (base = lit "address" ∨ pyStartsWith (lit "uint") base = true) →
        parameters.length < cur + 64 →
        clientArrayElems keccak parameters base n cur =
          Except.ok (List.replicate n PyVal.none)) ∧
    (∀ (parameters : PyStr) (data : List Nat) (inputs : List AbiInput),
        fromHex? parameters = some data →
        idDecodeParameters parameters inputs = Except.ok (idDecodeParamsAux data 0 inputs [])) ∧
    (∀ (data : List Nat) (offset : Nat) (inputs : List AbiInput)
        (acc : List (String × PyVal)) (inp : AbiInput),
        inp ∈ inputs →
        ∃ v, dictGet (idDecodeParamsAux data offset inputs acc) inp.name = some v) ∧
    (∀ inputs : List AbiInput,
        idDecodeParameters [] inputs =
          Except.ok (inputs.foldl (fun acc inp => dictSet acc inp.name (emptyBlobValue inp.type)) [])) ∧
    (∀ (data : List Nat) (offset : Nat) (nm : String) (rest : List AbiInput)
        (acc : List (String × PyVal)),
        idDecodeParamsAux data offset (⟨"address", nm⟩ :: rest) acc =
          idDecodeParamsAux data (offset + 32) rest
            (dictSet acc nm (PyVal.str (lit "0x" ++
              hexOfBytes (takeLast 20 (pySliceBytes data offset (offset + 32))))))) ∧
    (∀ (data : List Nat) (offset : Nat), data.length ≤ offset + 20 →
        (lit "0x" ++ hexOfBytes (takeLast 20 (pySliceBytes data offset (offset + 32)))).length =
          2 + 2 * (data.length - offset)) := by
  refine ⟨?_, ?_, ?_, ?_, ?_, ?_, ?_, ?_, ?_, ?_, ?_⟩
  · intro keccak parameters offset ts res h
    induction ts generalizing offset res with
    | nil =>
      simp [clientDecodeParamsAux] at h
      simp [h.symm]
    | cons t rest ih =>
      simp only [clientDecodeParamsAux] at h
      repeat' split at h
      all_goals
        first
        | (obtain ⟨r, hr, rfl⟩ := exceptMapOk h
           simp [List.length_cons, ih _ _ hr])
        | simp at h
  · intro keccak parameters offset ts h
    induction ts generalizing offset with
    | nil => simp [clientDecodeParamsAux]
    | cons t rest ih =>
      have hlt : ¬ (offset + 64 ≤ parameters.length) := by omega
      have ih2 := ih offset h
      by_cases h1 : t = lit "address"
      · simp [clientDecodeParamsAux, truncValue, h1, hlt, ih2, Except.map]
      · by_cases h2 : pyStartsWith (lit "uint") t = true
        · simp [clientDecodeParamsAux, truncValue, h1, h2, hlt, ih2, Except.map]
        · by_cases h3 : t = lit "bool"
          · simp [clientDecodeParamsAux, truncValue, h1, h2, h3, hlt, ih2, Except.map]
          · by_cases h4 : t = lit "bytes"
            · simp [clientDecodeParamsAux, truncValue, h1, h2, h3, h4, hlt, ih2, Except.map]
            · by_cases h5 : pyEndsWith (lit "[]") t = true
              · simp [clientDecodeParamsAux, truncValue, h1, h2, h3, h4, h5, hlt, ih2, Except.map]
              · simp [clientDecodeParamsAux, truncValue, h1, h2, h3, h4, h5, hlt, ih2, Except.map]
  · intro keccak parameters offset rest d0 hoff hparse hpast
    simp +decide [clientDecodeParamsAux, hoff, hparse, hpast]
  · intro keccak parameters offset rest d0 l0 hoff hparse hlen hparse2 hpast
    simp +decide [clientDecodeParamsAux, hoff, hparse, hlen, hparse2, hpast]
  · intro keccak parameters offset t rest a0 h1 h2 h3 h4 h5 hoff hparse hpast
    simp [clientDecodeParamsAux, h1, h2, h3, h4, h5, hoff, hparse, hpast]
  · intro keccak parameters base n cur hb hlt
    induction n with
    | zero => rfl
    | succ n ih =>
      have hle : ¬ (cur + 64 ≤ parameters.length) := by omega
      rcases hb with hb | hb
      · subst hb
        simp [clientArrayElems, hle, ih, List.replicate_succ, Except.map]
      · have hba : base ≠ lit "address" := by
          intro hcontra
          rw [hcontra] at hb
          exact absurd hb (by decide)
        simp [clientArrayElems, hba, hb, hle, ih, List.replicate_succ, Except.map]
  · intro parameters data inputs h
    unfold idDecodeParameters
    rw [h]
  · have hbound : ∀ (inputs : List AbiInput) (data : List Nat) (offset : Nat)
        (acc : List (String × PyVal)) (inp : AbiInput), inp ∈ inputs →
        ∃ v, dictGet (idDecodeParamsAux data offset inputs acc) inp.name = some v := by
      intro inputs
      induction inputs with
      | nil => intro _ _ _ inp h; cases h
      | cons inp2 rest ih =>
        intro data offset acc inp hmem
        obtain ⟨w, off2, heq⟩ := idDecodeParamsAux_cons data offset inp2 rest acc
        rw [heq]
        rcases List.mem_cons.mp hmem with rfl | hmem2
        · exact idDecodeParamsAux_preserves rest data off2 _ inp.name w
            (dictGet_dictSet acc inp.name w)
        · exact ih data off2 _ inp hmem2
    exact fun data offset inputs acc inp h => hbound inputs data offset acc inp h
  · intro inputs
    have hgen : ∀ (inputs : List AbiInput) (offset : Nat) (acc : List (String × PyVal)),
        idDecodeParamsAux [] offset inputs acc =
          inputs.foldl (fun acc inp => dictSet acc inp.name (emptyBlobValue inp.type)) acc := by
      intro inputs
      induction inputs with
      | nil => intro offset acc; simp [idDecodeParamsAux]
      | cons inp rest ih =>
        intro offset acc
        by_cases h1 : inp.type = "address"
        · simp [idDecodeParamsAux, emptyBlobValue, h1, ih, pySliceBytes, takeLast, hexOfBytes]
        · by_cases h2 : inp.type = "uint256" ∨ inp.type = "uint8"
          · simp [idDecodeParamsAux, emptyBlobValue, h1, h2, ih, pySliceBytes, beNat]
          · by_cases h3 : inp.type = "bytes"
            · simp [idDecodeParamsAux, emptyBlobValue, h1, h2, h3, ih, pySliceBytes, beNat,
                    hexOfBytes]
            · simp [idDecodeParamsAux, emptyBlobValue, h1, h2, h3, ih]
    show (match fromHex? [] with
          | Option.none => Except.error (lit "non-hexadecimal number found in fromhex() arg")
          | some data => Except.ok (idDecodeParamsAux data 0 inputs [])) = _
    rw [show fromHex? [] = some [] from rfl]
    simp [hgen]
  · intro data offset nm rest acc
    simp [idDecodeParamsAux]
  · intro data offset h
    have h2x : (lit "0x").length = 2 := rfl
    simp [List.length_append, h2x, hexOfBytes_length, takeLast, List.length_drop, pySliceBytes,
      List.length_take]
    omega

/-- Witness for C1 (amended): the empty blob against `[uint256, address[]]`
in the client decoder yields `[None, []]` of the declared length; a `bytes`
head word pointing past the end yields `None` and decoding continues; two
array elements past the end both decode to `None`; and in `InputDecoder`
the empty blob decodes every declared input to a degraded non-null value
(`0` for the uint256), while an address slot retaining one byte yields a
4-character hex string instead of a 42-character address. -/
theorem truncated_slot_degrades_witness :
    clientDecodeParamsAux (fun _ _ => 0) (lit "") 0 [lit "uint256", lit "address[]"] =
      Except.ok [PyVal.none, PyVal.list []] ∧
    ([PyVal.none, PyVal.list []] : List PyVal).length =
      ([lit "uint256", lit "address[]"] : List PyStr).length ∧
    clientDecodeParamsAux (fun _ _ => 0)
        (lit "0000000000000000000000000000000000000000000000000000000000000064") 0
        [lit "bytes"] =
      (clientDecodeParamsAux (fun _ _ => 0)
          (lit "0000000000000000000000000000000000000000000000000000000000000064") 64 []).map
        (PyVal.none :: ·) ∧
    clientArrayElems (fun _ _ => 0) (lit "") (lit "address") 2 0 =
      Except.ok (List.replicate 2 PyVal.none) ∧
    (∃ v, dictGet (idDecodeParamsAux [] 0 [⟨"uint256", "amount"⟩] []) "amount" = some v) ∧
    idDecodeParameters [] [⟨"uint256", "amount"⟩] = Except.ok [("amount", PyVal.int 0)] ∧
    (lit "0x" ++ hexOfBytes (takeLast 20 (pySliceBytes [171] 0 32))).length = 4 :=
  ⟨truncated_slot_degrades.2.1 (fun _ _ => 0) (lit "") 0 [lit "uint256", lit "address[]"]
      (by decide),
   truncated_slot_degrades.1 (fun _ _ => 0) (lit "") 0 [lit "uint256", lit "address[]"]
      [PyVal.none, PyVal.list []]
      (truncated_slot_degrades.2.1 (fun _ _ => 0) (lit "") 0 [lit "uint256", lit "address[]"]
        (by decide)),
   truncated_slot_degrades.2.2.1 (fun _ _ => 0)
      (lit "0000000000000000000000000000000000000000000000000000000000000064") 0 [] 100
      (by decide) (by decide) (by decide),
   truncated_slot_degrades.2.2.2.2.2.1 (fun _ _ => 0) (lit "") (lit "address") 2 0
      (Or.inl rfl) (by decide),
   truncated_slot_degrades.2.2.2.2.2.2.2.1 [] 0 [⟨"uint256", "amount"⟩] []
      ⟨"uint256", "amount"⟩ (by decide),
   truncated_slot_degrades.2.2.2.2.2.2.2.2.1 [⟨"uint256", "amount"⟩],
   truncated_slot_degrades.2.2.2.2.2.2.2.2.2.2 [171] 0 (by decide)⟩

/-- C3: call decoding recurses exactly one level.  Whenever the outer call
(after the length guard) decodes to `execTransaction` with a truthy string
`data` parameter different from `"0x"`, `decode_input` attaches
`_decode_function_call data` under `nested_call`; and no output of
`_decode_function_call` — in particular the attached nested result, even for
a nested `execTransaction` — ever contains a `nested_call` entry itself. -/
theorem exec_transaction_single_recursion :
    (∀ (reg : List (PyStr × FunctionDef)) (input : PyStr) (fields : List (String × PyVal))
        (d : PyStr),
        ¬ (normInput input).length < 10 →
        decodeFunctionCall reg (normInput input) = PyVal.obj fields →
        dictGet fields "function" = some (PyVal.str (lit "execTransaction")) →
        nestedDataOf fields = some (PyVal.str d) →
        d ≠ [] → d ≠ lit "0x" →
        decodeInput reg input =
          PyVal.obj (dictSet fields "nested_call" (decodeFunctionCall reg d)) ∧
        pyGet (decodeInput reg input) "nested_call" = some (decodeFunctionCall reg d)) ∧
    (∀ (reg : List (PyStr × FunctionDef)) (input2 : PyStr),
        pyGet (decodeFunctionCall reg input2) "nested_call" = Option.none) := by
  constructor
  · intro reg input fields d hlen hf hfn hnd hne hne2
    have hmain : decodeInput reg input =
        PyVal.obj (dictSet fields "nested_call" (decodeFunctionCall reg d)) := by
      unfold decodeInput
      rw [if_neg hlen, hf]
      show attachNested reg fields = _
      unfold attachNested
      rw [hfn, hnd]
      simp [hne, hne2]
    refine ⟨hmain, ?_⟩
    rw [hmain]
    simp [pyGet, dictGet_dictSet]
  · exact fun reg input2 => decodeFunctionCall_no_nested reg input2

/-- Witness for C3 at a minimal `execTransaction` calldata whose `data`
parameter decodes to `"0xab"`; the nested decode is attached, and the nested
result of the same blob carries no `nested_call` entry. -/
theorem exec_transaction_single_recursion_witness :
    decodeInput defaultSelectors (lit ("0x6a761202" ++
        "0000000000000000000000000000000000000000000000000000000000000000" ++
        "0000000000000000000000000000000000000000000000000000000000000000" ++
        "0000000000000000000000000000000000000000000000000000000000000060" ++
        "0000000000000000000000000000000000000000000000000000000000000001" ++ "ab")) =
      PyVal.obj (dictSet
        [("function", PyVal.str (lit "execTransaction")),
         ("params", PyVal.obj
           [("to", PyVal.str (lit "0x0000000000000000000000000000000000000000")),
            ("value", PyVal.int 0),
            ("data", PyVal.str (lit "0xab")),
            ("operation", PyVal.int 1),
            ("safeTxGas", PyVal.int 171),
            ("baseGas", PyVal.int 0),
            ("gasPrice", PyVal.int 0),
            ("gasToken", PyVal.str (lit "0x")),
            ("refundReceiver", PyVal.str (lit "0x")),
            ("signatures", PyVal.str (lit "0x"))])]
        "nested_call" (decodeFunctionCall defaultSelectors (lit "0xab"))) ∧
    pyGet (decodeFunctionCall defaultSelectors (lit "0xab")) "nested_call" = Option.none :=
  ⟨(exec_transaction_single_recursion.1 defaultSelectors
      (lit ("0x6a761202" ++
        "0000000000000000000000000000000000000000000000000000000000000000" ++
        "0000000000000000000000000000000000000000000000000000000000000000" ++
        "0000000000000000000000000000000000000000000000000000000000000060" ++
        "0000000000000000000000000000000000000000000000000000000000000001" ++ "ab"))
      [("function", PyVal.str (lit "execTransaction")),
       ("params", PyVal.obj
         [("to", PyVal.str (lit "0x0000000000000000000000000000000000000000")),
          ("value", PyVal.int 0),
          ("data", PyVal.str (lit "0xab")),
          ("operation", PyVal.int 1),
          ("safeTxGas", PyVal.int 171),
          ("baseGas", PyVal.int 0),
          ("gasPrice", PyVal.int 0),
          ("gasToken", PyVal.str (lit "0x")),
          ("refundReceiver", PyVal.str (lit "0x")),
          ("signatures", PyVal.str (lit "0x"))])]
      (lit "0xab") (by decide) rfl rfl rfl (by decide) (by decide)).1,
   exec_transaction_single_recursion.2 defaultSelectors (lit "0xab")⟩

theorem eip55Char_nonalpha (n : Nat) (c : Char) (h : c.isAlpha = false) :
    eip55Char n c = c := by
  simp [eip55Char, h]

theorem enumFrom_eip55_nonalpha (f : Nat → Nat) :
    ∀ (l : List Char) (k : Nat), (∀ c ∈ l, c.isAlpha = false) →
      (List.enumFrom k l).map (fun p => eip55Char (f p.1) p.2) = l := by
  intro l
  induction l with
  | nil => intro k h; simp
  | cons a rest ih =>
    intro k h
    simp only [List.enumFrom, List.map_cons]
    rw [eip55Char_nonalpha _ _ (h a (by simp)), ih (k + 1) (fun c hc => h c (by simp [hc]))]

theorem toChecksumAddress_digits (keccak : PyStr → Nat → Nat) :
    toChecksumAddress keccak (lit "0x0000000000000000000000000000000000000001") =
      lit "0x0000000000000000000000000000000000000001" := by
  show lit "0x" ++
      (List.enumFrom 0
        (((lit "0x0000000000000000000000000000000000000001").drop 2).map pyToLower)).map
        (fun p =>
          eip55Char
            (keccak (((lit "0x0000000000000000000000000000000000000001").drop 2).map pyToLower)
              p.1) p.2) =
    lit "0x0000000000000000000000000000000000000001"
  rw [show ((lit "0x0000000000000000000000000000000000000001").drop 2).map pyToLower =
        lit "0000000000000000000000000000000000000001" from by decide]
  rw [enumFrom_eip55_nonalpha (keccak (lit "0000000000000000000000000000000000000001"))
        (lit "0000000000000000000000000000000000000001") 0 (by decide)]
  rfl

theorem checksumOrRaw_digits (keccak : PyStr → Nat → Nat) :
    checksumOrRaw keccak (lit "0x0000000000000000000000000000000000000001") =
      lit "0x0000000000000000000000000000000000000001" := by
  unfold checksumOrRaw
  rw [if_pos (by decide)]
  exact toChecksumAddress_digits keccak

/-- C2: decoding calldata with selector `a9059cbb` and the ABI encoding of
(address `0x…01`, uint256 `10^18`) through
`EthereumClient._decode_transaction_input` yields function name `transfer`,
parameter `to` equal to the checksummed rendering of the address (which, for
this all-digit address, is the address itself under every keccak oracle),
and parameter `value` with raw `1000000000000000000` and formatted `"1"`. -/
theorem transfer_calldata_decode (keccak : PyStr → Nat → Nat) :
    pyGet (clientDecodeTransactionInput keccak
        (lit ("0xa9059cbb" ++
          "0000000000000000000000000000000000000000000000000000000000000001" ++
          "0000000000000000000000000000000000000000000000000de0b6b3a7640000"))
        (some (lit "0xc0ffee"))) "name" = some (PyVal.str (lit "transfer")) ∧
    pyGet2 (clientDecodeTransactionInput keccak
        (lit ("0xa9059cbb" ++
          "0000000000000000000000000000000000000000000000000000000000000001" ++
          "0000000000000000000000000000000000000000000000000de0b6b3a7640000"))
        (some (lit "0xc0ffee"))) "parameters" "to" =
      some (PyVal.str (lit "0x0000000000000000000000000000000000000001")) ∧
    pyGet2 (clientDecodeTransactionInput keccak
        (lit ("0xa9059cbb" ++
          "0000000000000000000000000000000000000000000000000000000000000001" ++
          "0000000000000000000000000000000000000000000000000de0b6b3a7640000"))
        (some (lit "0xc0ffee"))) "parameters" "value" =
      some (PyVal.obj [("raw", PyVal.int 1000000000000000000),
                       ("formatted", PyVal.str (lit "1"))]) := by
  refine ⟨rfl, ?_, rfl⟩
  rw [show pyGet2 (clientDecodeTransactionInput keccak
        (lit ("0xa9059cbb" ++
          "0000000000000000000000000000000000000000000000000000000000000001" ++
          "0000000000000000000000000000000000000000000000000de0b6b3a7640000"))
        (some (lit "0xc0ffee"))) "parameters" "to" =
      some (PyVal.str (checksumOrRaw keccak
        (lit "0x0000000000000000000000000000000000000001"))) from rfl]
  rw [checksumOrRaw_digits keccak]

theorem mem_dropLast_cons {α : Type} {p a : α} {l : List α} (h : p ∈ (a :: l).dropLast) :
    p = a ∨ p ∈ l.dropLast := by
  cases l with
  | nil => simp at h
  | cons b bs =>
    rw [List.dropLast_cons₂] at h
    exact List.mem_cons.mp h

theorem disasmGo_fuel : ∀ (f1 f2 : Nat) (bc : PyStr), bc.length ≤ f1 → bc.length ≤ f2 →
    disasmGo f1 bc = disasmGo f2 bc := by
  intro f1
  induction f1 with
  | zero =>
    intro f2 bc h1 h2
    have hb : bc = [] := List.eq_nil_of_length_eq_zero (by omega)
    subst hb
    cases f2 <;> rfl
  | succ f1 ih =>
    intro f2 bc h1 h2
    cases bc with
    | nil => cases f2 <;> rfl
    | cons c1 rest =>
      cases f2 with
      | zero => simp at h2
      | succ f2 =>
        simp only [disasmGo]
        cases htab : tableGet opcodeTable (((c1 :: rest).take 2).map pyToLower) with
        | none =>
          simp only [htab]
          exact congrArg (List.cons _)
            (ih f2 (rest.drop 1) (by simp at h1 ⊢; omega) (by simp at h2 ⊢; omega))
        | some name =>
          simp only [htab]
          by_cases hpush : (pyStrLe (lit "60") (((c1 :: rest).take 2).map pyToLower) &&
              pyStrLe (((c1 :: rest).take 2).map pyToLower) (lit "7f")) = true
          · simp only [hpush, if_true]
            by_cases hlen : 2 + 2 * (hexPairVal (((c1 :: rest).take 2).map pyToLower) - 96 + 1) ≤
                (c1 :: rest).length
            · simp only [hlen, if_true]
              exact congrArg (List.cons _)
                (ih f2 _ (by simp at h1 ⊢; omega) (by simp at h2 ⊢; omega))
            · simp only [hlen, if_false]
          · simp only [hpush, if_false]
            exact congrArg (List.cons _)
              (ih f2 (rest.drop 1) (by simp at h1 ⊢; omega) (by simp at h2 ⊢; omega))

/-- C4: if the disassembler's linear scan reaches a PUSH1..PUSH32 opcode with
fewer remaining characters than the declared immediate width, it emits
exactly one final instruction marked incomplete and the scan ends there; no
instruction ever follows an incomplete-flagged one (the flag marks exactly
the incomplete-PUSH branch), and `_disassemble_opcodes` is the string
projection of the instrumented scan. -/
theorem disassembler_incomplete_push_final :
    (∀ (bc : PyStr) (p : PyStr × Bool), p ∈ (disasmAux bc).dropLast → p.2 = false) ∧
    (∀ bc : PyStr, disassembleOpcodes bc = (disasmAux bc).map Prod.fst) ∧
    (∀ (c1 c2 : Char) (rest : PyStr) (name : PyStr),
        tableGet opcodeTable ([c1, c2].map pyToLower) = some name →
        (pyStrLe (lit "60") ([c1, c2].map pyToLower) &&
         pyStrLe ([c1, c2].map pyToLower) (lit "7f")) = true →
        rest.length < 2 * (hexPairVal ([c1, c2].map pyToLower) - 96 + 1) →
        disasmAux (c1 :: c2 :: rest) =
          [(lit "0x" ++ [c1, c2].map pyToLower ++ lit " " ++ name ++ lit " (incomplete)",
            true)]) := by
  have hmain : ∀ (fuel : Nat) (bc : PyStr) (p : PyStr × Bool),
      p ∈ (disasmGo fuel bc).dropLast → p.2 = false := by
    intro fuel
    induction fuel with
    | zero => intro bc p hp; simp [disasmGo] at hp
    | succ fuel ih =>
      intro bc p hp
      cases bc with
      | nil => simp [disasmGo] at hp
      | cons c1 rest =>
        simp only [disasmGo] at hp
        cases htab : tableGet opcodeTable (((c1 :: rest).take 2).map pyToLower) with
        | none =>
          simp only [htab] at hp
          rcases mem_dropLast_cons hp with rfl | hp2
          · rfl
          · exact ih _ _ hp2
        | some name =>
          simp only [htab] at hp
          by_cases hpush : (pyStrLe (lit "60") (((c1 :: rest).take 2).map pyToLower) &&
              pyStrLe (((c1 :: rest).take 2).map pyToLower) (lit "7f")) = true
          · simp only [hpush, if_true] at hp
            by_cases hlen : 2 + 2 * (hexPairVal (((c1 :: rest).take 2).map pyToLower) - 96 + 1) ≤
                (c1 :: rest).length
            · simp only [hlen, if_true] at hp
              rcases mem_dropLast_cons hp with rfl | hp2
              · rfl
              · exact ih _ _ hp2
            · simp only [hlen, if_false] at hp
              simp [List.dropLast] at hp
          · simp only [hpush, if_false] at hp
            rcases mem_dropLast_cons hp with rfl | hp2
            · rfl
            · exact ih _ _ hp2
  refine ⟨fun bc => hmain bc.length bc, fun bc => rfl, ?_⟩
  intro c1 c2 rest name h1 h2 h3
  simp only [List.map_cons, List.map_nil] at h1 h2 h3
  have hlen : ¬ (2 + 2 * (hexPairVal [pyToLower c1, pyToLower c2] - 96 + 1) ≤
      rest.length + 1 + 1) := by omega
  show disasmGo (c1 :: c2 :: rest).length (c1 :: c2 :: rest) = _
  simp only [List.length_cons, disasmGo]
  simp [h1, h2, hlen]

/-- Witness for C4: in the two-instruction disassembly of `600100` the
non-final instruction is not flagged incomplete, and the bytecode `7f`
(PUSH32 with no immediate bytes) disassembles to exactly one incomplete
instruction. -/
theorem disassembler_incomplete_push_final_witness :
    ((lit "0x60 PUSH1 0x01", false) : PyStr × Bool).2 = false ∧
    disasmAux ['7', 'f'] = [(lit "0x7f PUSH32 (incomplete)", true)] :=
  ⟨disassembler_incomplete_push_final.1 (lit "600100") (lit "0x60 PUSH1 0x01", false)
      (by decide),
   disassembler_incomplete_push_final.2.2 '7' 'f' [] (lit "PUSH32")
      (by decide) (by decide) (by decide)⟩

/-- C5 counterexample: in the bytecode `63a9059cbb` position 0 holds the
PUSH4 opcode followed by 4 valid lowercase-hex bytes, yet
`_extract_function_selectors` records nothing: the loop guard
`i < len(bytecode) - 10` excludes every position whose opcode and immediate
reach the end of the string, so the claimed "one FunctionSelector is
recorded at every such position" fails here. -/
theorem selector_scan_counterexample :
    extractFunctionSelectors (lit "63a9059cbb") = [] ∧
    (lit "63a9059cbb").take 2 = lit "63" ∧
    ((lit "63a9059cbb").drop 2).all isHexLower = true := by
  refine ⟨?_, by decide, by decide⟩
  unfold extractFunctionSelectors
  conv_lhs => rw [extractSelectorsAux]
  rw [dif_neg (by decide)]

/-- C5 (amended): the selector scan visits a position only while more than
5 bytes remain (the guard `i < len - 10` in characters, so a trailing
PUSH4 pattern is never recorded); at a visited position whose pair is `"63"`
the scan advances past the opcode and its 4 immediate bytes whether or not
the 8 immediate characters are valid lowercase hex, recording one
`(selector, known-signature)` entry exactly when they are; every other
visited position advances one byte.  Entries accumulate in scan order
without deduplication. -/
theorem selector_scan_steps :
    (∀ bc : PyStr, extractFunctionSelectors bc = extractSelectorsAux bc) ∧
    (∀ rem : PyStr, rem.length ≤ 10 → extractSelectorsAux rem = []) ∧
    (∀ rem : PyStr, 10 < rem.length → rem.take 2 = lit "63" →
        ((rem.drop 2).take 8).all isHexLower = true →
        extractSelectorsAux rem =
          ((rem.drop 2).take 8, tableGet knownSelectorsTable ((rem.drop 2).take 8)) ::
            extractSelectorsAux (rem.drop 10)) ∧
    (∀ rem : PyStr, 10 < rem.length → rem.take 2 = lit "63" →
        ((rem.drop 2).take 8).all isHexLower = false →
        extractSelectorsAux rem = extractSelectorsAux (rem.drop 10)) ∧
    (∀ rem : PyStr, 10 < rem.length → rem.take 2 ≠ lit "63" →
        extractSelectorsAux rem = extractSelectorsAux (rem.drop 2)) := by
  refine ⟨fun bc => rfl, ?_, ?_, ?_, ?_⟩
  · intro rem h
    unfold extractSelectorsAux
    rw [dif_neg (by omega)]
  · intro rem h h2 h3
    have h8 : ((rem.drop 2).take 8).length = 8 := by
      simp [List.length_take, List.length_drop]
      omega
    conv_lhs => rw [extractSelectorsAux]
    rw [dif_pos h, if_pos h2]
    simp [h8, h3]
  · intro rem h h2 h3
    conv_lhs => rw [extractSelectorsAux]
    rw [dif_pos h, if_pos h2]
    simp [h3]
  · intro rem h h2
    conv_lhs => rw [extractSelectorsAux]
    rw [dif_pos h, if_neg h2]

/-- Witness for C5 (amended): `63a9059cbb00` (6 bytes) records the transfer
selector at position 0 and continues past the consumed immediate, while the
trailing pattern `63a9059cbb` (5 bytes) is never scanned. -/
theorem selector_scan_steps_witness :
    extractSelectorsAux (lit "63a9059cbb00") =
      (lit "a9059cbb", some (lit "transfer(address,uint256)")) ::
        extractSelectorsAux (lit "00") ∧
    extractSelectorsAux (lit "63a9059cbb") = [] :=
  ⟨selector_scan_steps.2.2.1 (lit "63a9059cbb00") (by decide) (by decide) (by decide),
   selector_scan_steps.2.1 (lit "63a9059cbb") (by decide)⟩

/-- C6 counterexample: in this bytecode a PUSH1 (immediate `07`) sits exactly
35 bytes before the SLOAD byte (character distance 70), inside the claimed
35-byte backward window, yet no guess is recorded: the scan's strict guard
`back_index > i - 70` stops one position short, giving a 34-byte window. -/
theorem storage_window_counterexample :
    extractStorageSlotsRaw
      (lit ("6007" ++
        "000000000000000000000000000000000000000000000000000000000000000000" ++
        "540000")) = [] ∧
    pySlice (lit ("6007" ++
        "000000000000000000000000000000000000000000000000000000000000000000" ++
        "540000")) 70 72 = lit "54" ∧
    pySlice (lit ("6007" ++
        "000000000000000000000000000000000000000000000000000000000000000000" ++
        "540000")) 0 2 = lit "60" ∧
    pySlice (lit ("6007" ++
        "000000000000000000000000000000000000000000000000000000000000000000" ++
        "540000")) 2 4 = lit "07" := by
  refine ⟨?_, by decide, by decide, by decide⟩
  unfold extractStorageSlotsRaw
  simp +decide [storageSlotsAux, backScan]

/-- C6 (amended): every storage-slot guess comes from the first byte in the
PUSH1..PUSH32 string range found scanning backward from the character
position just before an SLOAD/SSTORE occurrence (itself scanned only while
more than 2 bytes follow it), with the strict window `back_index > i - 70`:
the PUSH byte lies at most 34 bytes (not 35) before the occurrence, its
(possibly truncated) immediate sized per the opcode and validated as
nonempty lowercase hex becomes the guess, and when no byte in the PUSH range
lies within that 34-byte window no guess is recorded for the occurrence. -/
theorem storage_backscan_window :
    (∀ (b : Nat) (bc : PyStr) (i : Nat) (slot : PyStr), backScan bc i b = some slot →
      ∃ b2, b2 ≤ b ∧ i < b2 + 70 ∧
        (pyStrLe (lit "60") (pySlice bc b2 (b2 + 2)) &&
         pyStrLe (pySlice bc b2 (b2 + 2)) (lit "7f")) = true ∧
        slot = pySlice bc (b2 + 2) (b2 + 2 + (hexPairVal (pySlice bc b2 (b2 + 2)) - 96 + 1) * 2) ∧
        ((!slot.isEmpty) && slot.all isHexLower) = true) ∧
    (∀ (b : Nat) (bc : PyStr) (i : Nat),
      (∀ b2, b2 < b + 1 → i < b2 + 70 → (b - b2) % 2 = 0 →
        (pyStrLe (lit "60") (pySlice bc b2 (b2 + 2)) &&
         pyStrLe (pySlice bc b2 (b2 + 2)) (lit "7f")) = false) →
      backScan bc i b = Option.none) ∧
    (∀ (bc : PyStr) (i : Nat) (slot : PyStr), slot ∈ storageSlotsAux bc i →
      ∃ j, i ≤ j ∧ j + 4 < bc.length ∧
        (pySlice bc j (j + 2) = lit "54" ∨ pySlice bc j (j + 2) = lit "55") ∧
        2 ≤ j ∧ backScan bc j (j - 2) = some slot) ∧
    (∀ bc : PyStr, extractStorageSlotsRaw bc = storageSlotsAux bc 0) := by
  refine ⟨?_, ?_, ?_, fun bc => rfl⟩
  · intro b
    induction b using Nat.strong_induction_on with
    | _ b ih =>
      intro bc i slot h
      unfold backScan at h
      by_cases hw : b + 70 > i
      · rw [dif_pos hw] at h
        by_cases hpush : (pyStrLe (lit "60") (pySlice bc b (b + 2)) &&
            pyStrLe (pySlice bc b (b + 2)) (lit "7f")) = true
        · rw [if_pos hpush] at h
          by_cases hv : ((!(pySlice bc (b + 2)
                (b + 2 + (hexPairVal (pySlice bc b (b + 2)) - 96 + 1) * 2)).isEmpty) &&
              (pySlice bc (b + 2)
                (b + 2 + (hexPairVal (pySlice bc b (b + 2)) - 96 + 1) * 2)).all isHexLower) = true
          · rw [if_pos hv] at h
            injection h with h2
            exact ⟨b, le_refl b, hw, hpush, h2.symm, h2 ▸ hv⟩
          · rw [if_neg hv] at h
            cases h
        · rw [if_neg hpush] at h
          by_cases hb : 2 ≤ b
          · rw [dif_pos hb] at h
            obtain ⟨b2, hle, hrest⟩ := ih (b - 2) (by omega) bc i slot h
            exact ⟨b2, by omega, hrest⟩
          · rw [dif_neg hb] at h
            cases h
      · rw [dif_neg hw] at h
        cases h
  · intro b
    induction b using Nat.strong_induction_on with
    | _ b ih =>
      intro bc i hcond
      unfold backScan
      by_cases hw : b + 70 > i
      · rw [dif_pos hw]
        have hp := hcond b (by omega) hw (by simp)
        rw [if_neg (by simp [hp])]
        by_cases hb : 2 ≤ b
        · rw [dif_pos hb]
          exact ih (b - 2) (by omega) bc i (fun b2 h2 hw2 hpar =>
            hcond b2 (by omega) hw2 (by omega))
        · rw [dif_neg hb]
      · rw [dif_neg hw]
  · have hC : ∀ (k : Nat) (bc : PyStr) (i : Nat), bc.length - i ≤ k →
        ∀ slot, slot ∈ storageSlotsAux bc i →
        ∃ j, i ≤ j ∧ j + 4 < bc.length ∧
          (pySlice bc j (j + 2) = lit "54" ∨ pySlice bc j (j + 2) = lit "55") ∧
          2 ≤ j ∧ backScan bc j (j - 2) = some slot := by
      intro k
      induction k with
      | zero =>
        intro bc i hk slot h
        unfold storageSlotsAux at h
        rw [dif_neg (by omega)] at h
        simp at h
      | succ k ih =>
        intro bc i hk slot h
        by_cases hc : i + 4 < bc.length
        · unfold storageSlotsAux at h
          rw [dif_pos hc] at h
          rcases List.mem_append.mp h with hmem | hmem
          · cases hpair : (if pySlice bc i (i + 2) = lit "54" ∨ pySlice bc i (i + 2) = lit "55" then
                (if 2 ≤ i then backScan bc i (i - 2) else Option.none)
              else Option.none) with
            | none =>
              rw [hpair] at hmem
              simp at hmem
            | some s =>
              rw [hpair] at hmem
              simp at hmem
              subst hmem
              by_cases hp : pySlice bc i (i + 2) = lit "54" ∨ pySlice bc i (i + 2) = lit "55"
              · rw [if_pos hp] at hpair
                by_cases hi2 : 2 ≤ i
                · rw [if_pos hi2] at hpair
                  exact ⟨i, le_refl i, hc, hp, hi2, hpair⟩
                · rw [if_neg hi2] at hpair
                  cases hpair
              · rw [if_neg hp] at hpair
                cases hpair
          · obtain ⟨j, hij, hrest⟩ := ih bc (i + 2) (by omega) slot hmem
            exact ⟨j, by omega, hrest⟩
        · unfold storageSlotsAux at h
          rw [dif_neg hc] at h
          simp at h
    exact fun bc i slot h => hC (bc.length - i) bc i (le_refl _) slot h

/-- Witness for C6 (amended): the backward scan over `6007` starting at the
PUSH1 byte yields the guess `07` from within the window, and over `0000`
(no PUSH-range byte in the window) it records nothing. -/
theorem storage_backscan_window_witness :
    (∃ b2, b2 ≤ 0 ∧ 4 < b2 + 70 ∧
        (pyStrLe (lit "60") (pySlice (lit "6007") b2 (b2 + 2)) &&
         pyStrLe (pySlice (lit "6007") b2 (b2 + 2)) (lit "7f")) = true ∧
        lit "07" = pySlice (lit "6007") (b2 + 2)
          (b2 + 2 + (hexPairVal (pySlice (lit "6007") b2 (b2 + 2)) - 96 + 1) * 2) ∧
        ((!(lit "07").isEmpty) && (lit "07").all isHexLower) = true) ∧
    backScan (lit "0000") 2 0 = Option.none :=
  ⟨storage_backscan_window.1 0 (lit "6007") 4 (lit "07") (by simp +decide [backScan]),
   storage_backscan_window.2.1 0 (lit "0000") 2 (by decide)⟩

/-- C8: the fallback renderer's output is its contract body followed by the
trailing disassembly comment; the comment joins exactly the first 100
disassembled instructions with the `...(truncated)` marker when more than
100 exist, and joins all instructions with no marker when at most 100
exist. -/
theorem fallback_trailer_hundred :
    (∀ (setList : List PyStr → List PyStr) (bc : PyStr),
        enhancedSolidityFallback setList bc =
          fallbackPrefixPart setList (stripHex bc) ++
            opcodesTrailer (disassembleOpcodes (stripHex bc))) ∧
    (∀ ops : List PyStr, ops.length ≤ 100 →
        opcodesTrailer ops =
          lit "/*\nDisassembled Opcodes (first 100):\n" ++ pyJoin (lit "\n") ops ++
            lit "\n*/\n") ∧
    (∀ ops : List PyStr, 100 < ops.length →
        opcodesTrailer ops =
          lit "/*\nDisassembled Opcodes (first 100):\n" ++ pyJoin (lit "\n") (ops.take 100) ++
            lit "\n...(truncated)" ++ lit "\n*/\n") := by
  refine ⟨fun setList bc => rfl, ?_, ?_⟩
  · intro ops h
    unfold opcodesTrailer
    rw [if_neg (by omega), List.take_of_length_le h]
    simp
  · intro ops h
    unfold opcodesTrailer
    rw [if_pos h]

/-- Witness for C8 at the 3-instruction bytecode `6001600255`: at most 100
instructions, so the comment lists all of them with no marker. -/
theorem fallback_trailer_hundred_witness :
    (disassembleOpcodes (stripHex (lit "6001600255"))).length ≤ 100 ∧
    opcodesTrailer (disassembleOpcodes (stripHex (lit "6001600255"))) =
      lit "/*\nDisassembled Opcodes (first 100):\n" ++
        pyJoin (lit "\n") (disassembleOpcodes (stripHex (lit "6001600255"))) ++ lit "\n*/\n" :=
  ⟨by decide,
   fallback_trailer_hundred.2.1 (disassembleOpcodes (stripHex (lit "6001600255"))) (by decide)⟩

/-- C9: when every external decompiler backend is unavailable (each `which`
check fails, so each backend contributes `None` regardless of its runner),
`decompile_bytecode` falls through to `_enhanced_solidity_fallback` and
returns its output; on hex bytecode (the accepted encoding) every operation
on this path is total, so no exception is raised. -/
theorem no_backends_falls_back (runH runP runE : PyStr → Option PyStr)
    (setList : List PyStr → List PyStr) (bc : PyStr) (hhex : isHexInput bc = true) :
    decompileBytecode false false false runH runP runE setList bc =
      enhancedSolidityFallback setList bc := rfl

/-- Witness for C9 at the bytecode `6001600255` with always-declining
runners. -/
theorem no_backends_falls_back_witness :
    decompileBytecode false false false (fun _ => Option.none) (fun _ => Option.none)
        (fun _ => Option.none) id (lit "6001600255") =
      enhancedSolidityFallback id (lit "6001600255") :=
  no_backends_falls_back (fun _ => Option.none) (fun _ => Option.none) (fun _ => Option.none)
    id (lit "6001600255") (by decide)
